import Mathlib

/-
  Verification of the Noise handshake core (handshakestate.rs).

  The file embeds `HandshakeState::new`, `HandshakeState::write_message` and
  `HandshakeState::read_message` from src/src/handshakestate.rs.  The
  collaborating components that the repository keeps in other files
  (SymmetricState, CipherState, the pattern resolver) are modelled from the
  specification, and the cryptographic primitives (DH, AEAD, hash, HKDF) are
  abstract capabilities gathered in a `Crypto` record, exactly as the
  specification treats them.  Panicking paths of the Rust code (assert
  failures, out-of-bounds indexing, unwrap of None) are modelled as `none`;
  the recoverable `NoiseError::DecryptError` is modelled with `Except`.
-/

namespace Snow

/-- DHLEN from constants.rs: byte length of a DH public key and DH output. -/
def DHLEN : Nat := 32

/-- TAGLEN from constants.rs: byte length of an AEAD authentication tag. -/
def TAGLEN : Nat := 16

/-- MAXMSGLEN from handshakestate.rs: maximum handshake message size. -/
def MAXMSGLEN : Nat := 65535

/-- The token alphabet of the message-pattern matrix (patterns.rs).  The Rust
names are E, S, Dhee, Dhes, Dhse, Dhss, Empty. -/
inductive Token where
  | E
  | S
  | Dhee
  | Dhes
  | Dhse
  | Dhss
  | Empty
deriving DecidableEq

/-- The single recoverable error of handshakestate.rs. -/
inductive NoiseError where
  | DecryptError
deriving DecidableEq

/-- Modelled from the spec: the abstract cryptographic capability set of
section 6 (RNG, DH, hash, HKDF with 2 or 3 outputs, AEAD), plus the textual
names that `s.name`, `hash_name` and `cipher_name` write.  Bytes are lists of
naturals; a keypair is an opaque natural handle whose public key is `pub`. -/
structure Crypto where
  hashlen : Nat
  HASH : List Nat → List Nat
  hkdf2 : List Nat → List Nat → List Nat × List Nat
  hkdf3 : List Nat → List Nat → List Nat × List Nat × List Nat
  enc : List Nat → Nat → List Nat → List Nat → List Nat
  dec : List Nat → Nat → List Nat → List Nat → Option (List Nat)
  pub : Nat → List Nat
  dh : Nat → List Nat → List Nat
  dhName : List Nat
  hashName : List Nat
  cipherName : List Nat

/-- Modelled from the spec: CipherState holds an optional key and a nonce. -/
structure CipherState where
  k : Option (List Nat)
  n : Nat
deriving DecidableEq

/-- Modelled from the spec: whether the CipherState is keyed. -/
def CipherState.has_key (cs : CipherState) : Bool := cs.k.isSome

/-- Modelled from the spec: `initialize_key` sets the key and resets the
nonce to 0. -/
def CipherState.init_key (key : List Nat) : CipherState :=
  { k := some key, n := 0 }

/-- Modelled from the spec: AEAD encryption with associated data; when
unkeyed the plaintext passes through unchanged, when keyed the nonce is
consumed and incremented. -/
def CipherState.encrypt_with_ad (C : Crypto) (cs : CipherState) (ad pt : List Nat) :
    CipherState × List Nat :=
  match cs.k with
  | none => (cs, pt)
  | some key => ({ k := some key, n := cs.n + 1 }, C.enc key cs.n ad pt)

/-- Modelled from the spec: AEAD decryption with associated data; `none`
models an authentication failure, and the nonce is incremented only on
success. -/
def CipherState.decrypt_with_ad (C : Crypto) (cs : CipherState) (ad ct : List Nat) :
    Option (CipherState × List Nat) :=
  match cs.k with
  | none => some (cs, ct)
  | some key =>
    match C.dec key cs.n ad ct with
    | none => none
    | some pt => some ({ k := some key, n := cs.n + 1 }, pt)

/-- Modelled from the spec: SymmetricState holds the transcript hash `h`,
the chaining key `ck`, the PSK flag and an inner CipherState. -/
structure SymmetricState where
  h : List Nat
  ck : List Nat
  has_psk : Bool
  cst : CipherState
deriving DecidableEq

/-- Modelled from the spec: `initialize(protocol_name)` sets `h` to the name
zero-padded to HASHLEN when it fits, else to its hash; `ck := h`; the inner
key is cleared. -/
def SymmetricState.init (C : Crypto) (name : List Nat) : SymmetricState :=
  let h0 := if name.length ≤ C.hashlen
            then name ++ List.replicate (C.hashlen - name.length) 0
            else C.HASH name
  { h := h0, ck := h0, has_psk := false, cst := { k := none, n := 0 } }

/-- Modelled from the spec: `mix_hash(data)` sets `h := HASH(h || data)`. -/
def SymmetricState.mix_hash (C : Crypto) (ss : SymmetricState) (data : List Nat) :
    SymmetricState :=
  { ss with h := C.HASH (ss.h ++ data) }

/-- Modelled from the spec: `mix_key(input)` runs the two-output HKDF on
`(ck, input)`, assigns the first output to `ck` and keys the inner
CipherState with the first 32 bytes of the second. -/
def SymmetricState.mix_key (C : Crypto) (ss : SymmetricState) (input : List Nat) :
    SymmetricState :=
  let p := C.hkdf2 ss.ck input
  { ss with ck := p.1, cst := CipherState.init_key (p.2.take 32) }

/-- Modelled from the spec: `mix_preshared_key(psk)` runs the three-output
HKDF; first output to `ck`, second is mix-hashed, third (truncated to 32
bytes) keys the inner CipherState; sets the PSK flag. -/
def SymmetricState.mix_preshared_key (C : Crypto) (ss : SymmetricState) (psk : List Nat) :
    SymmetricState :=
  let p := C.hkdf3 ss.ck psk
  let ss1 := { ss with ck := p.1, has_psk := true }
  let ss2 := ss1.mix_hash C p.2.1
  { ss2 with cst := CipherState.init_key (p.2.2.take 32) }

/-- Modelled from the spec: whether the inner CipherState is keyed. -/
def SymmetricState.has_key (ss : SymmetricState) : Bool := ss.cst.has_key

/-- Modelled from the spec: whether a PSK has been mixed. -/
def SymmetricState.has_preshared_key (ss : SymmetricState) : Bool := ss.has_psk

/-- Modelled from the spec: encrypt with the transcript hash as associated
data, then mix-hash the ciphertext. -/
def SymmetricState.encrypt_and_hash (C : Crypto) (ss : SymmetricState) (pt : List Nat) :
    SymmetricState × List Nat :=
  let p := ss.cst.encrypt_with_ad C ss.h pt
  ({ ss.mix_hash C p.2 with cst := p.1 }, p.2)

/-- Modelled from the spec: attempt decryption with the transcript hash as
associated data; on success mix-hash the ciphertext and return the
plaintext, on failure return `none` leaving `h` unchanged. -/
def SymmetricState.decrypt_and_hash (C : Crypto) (ss : SymmetricState) (ct : List Nat) :
    Option (SymmetricState × List Nat) :=
  match ss.cst.decrypt_with_ad C ss.h ct with
  | none => none
  | some q => some ({ ss.mix_hash C ct with cst := q.1 }, q.2)

/-- Modelled from the spec: `split` runs the two-output HKDF on `(ck, empty)`
and initializes the two transport CipherStates with the first 32 bytes of
each output. -/
def SymmetricState.split (C : Crypto) (ss : SymmetricState) : CipherState × CipherState :=
  let p := C.hkdf2 ss.ck []
  (CipherState.init_key (p.1.take 32), CipherState.init_key (p.2.take 32))

/-- The HandshakeState of handshakestate.rs.  The RNG is modelled as a
stream of private-key handles indexed by `rngPos`. -/
structure HandshakeState where
  symmetricstate : SymmetricState
  cipherstate1 : CipherState
  cipherstate2 : CipherState
  s : Nat
  e : Nat
  rs : Option (List Nat)
  re : Option (List Nat)
  my_turn_to_send : Bool
  message_patterns : List (List Token)
  message_index : Nat
  rng : Nat → Nat
  rngPos : Nat

/-- Byte list of a string literal, for the protocol-name construction. -/
def strB (s : String) : List Nat := s.toList.map Char.toNat

/-- Pre-message processing of the rows owned by this party: mix-hash the
local static or ephemeral public key; `unreachable!` on any other token is
modelled as `none`. -/
def mixPremsgOwn (C : Crypto) (ss : SymmetricState) (s e : Nat) :
    List Token → Option SymmetricState
  | [] => some ss
  | Token.Empty :: _ => some ss
  | Token.S :: ts => mixPremsgOwn C (ss.mix_hash C (C.pub s)) s e ts
  | Token.E :: ts => mixPremsgOwn C (ss.mix_hash C (C.pub e)) s e ts
  | _ :: _ => none

/-- Pre-message processing of the rows owned by the peer: mix-hash `rs` or
`re`; the unwrap of a missing key and the `unreachable!` arm are modelled as
`none`. -/
def mixPremsgPeer (C : Crypto) (ss : SymmetricState) (rs re : Option (List Nat)) :
    List Token → Option SymmetricState
  | [] => some ss
  | Token.Empty :: _ => some ss
  | Token.S :: ts =>
    match rs with
    | none => none
    | some v => mixPremsgPeer C (ss.mix_hash C v) rs re ts
  | Token.E :: ts =>
    match re with
    | none => none
    | some v => mixPremsgPeer C (ss.mix_hash C v) rs re ts
  | _ :: _ => none

/-- HandshakeState::new (handshakestate.rs lines 30-123).  The pattern
resolver lives in patterns.rs, which is not under src/; modelled from the
spec, it is a pure function of the pattern enumerant, so its four outputs
(`patternName`, `premsg_i`, `premsg_r`, `mp`) are taken as arguments here,
and the primitive names come from the `Crypto` record.  The borrowed output
CipherStates are `cs1` and `cs2`. -/
def HandshakeState.new (C : Crypto) (rng : Nat → Nat) (cs1 cs2 : CipherState)
    (patternName : List Nat) (premsg_i premsg_r : List Token)
    (mp : List (List Token)) (initiator : Bool) (prologue : List Nat)
    (psk : Option (List Nat)) (s e : Nat) (rs re : Option (List Nat)) :
    Option HandshakeState :=
  let pre := if psk.isSome then strB ("NoisePSK_") else strB ("Noise_")
  let hname := pre ++ patternName ++ [95] ++ C.dhName ++ [95] ++ C.hashName
               ++ [95] ++ C.cipherName
  let ss0 := SymmetricState.init C hname
  let ss1 := ss0.mix_hash C prologue
  let ss2 := match psk with
             | some p => ss1.mix_preshared_key C p
             | none => ss1
  match (if initiator then mixPremsgOwn C ss2 s e premsg_i
         else mixPremsgPeer C ss2 rs re premsg_i) with
  | none => none
  | some ss3 =>
    match (if initiator then mixPremsgPeer C ss3 rs re premsg_r
           else mixPremsgOwn C ss3 s e premsg_r) with
    | none => none
    | some ss4 =>
      some { symmetricstate := ss4, cipherstate1 := cs1, cipherstate2 := cs2,
             s := s, e := e, rs := rs, re := re,
             my_turn_to_send := initiator, message_patterns := mp,
             message_index := 0, rng := rng, rngPos := 0 }

/-- Token loop of write_message (handshakestate.rs lines 137-160).  `acc` is
the output buffer written so far; a missing remote key for a DH token is the
unwrap panic, modelled as `none`. -/
def writeTokens (C : Crypto) : List Token → HandshakeState → List Nat →
    Option (HandshakeState × List Nat)
  | [], st, acc => some (st, acc)
  | Token.Empty :: _, st, acc => some (st, acc)
  | Token.E :: ts, st, acc =>
    let enew := st.rng st.rngPos
    let pk := C.pub enew
    let ss1 := st.symmetricstate.mix_hash C pk
    let ss2 := if ss1.has_preshared_key then ss1.mix_key C pk else ss1
    writeTokens C ts
      { st with e := enew, rngPos := st.rngPos + 1, symmetricstate := ss2 }
      (acc ++ pk)
  | Token.S :: ts, st, acc =>
    let p := st.symmetricstate.encrypt_and_hash C (C.pub st.s)
    writeTokens C ts { st with symmetricstate := p.1 } (acc ++ p.2)
  | Token.Dhee :: ts, st, acc =>
    match st.re with
    | none => none
    | some v =>
      writeTokens C ts
        { st with symmetricstate := st.symmetricstate.mix_key C (C.dh st.e v) } acc
  | Token.Dhes :: ts, st, acc =>
    match st.rs with
    | none => none
    | some v =>
      writeTokens C ts
        { st with symmetricstate := st.symmetricstate.mix_key C (C.dh st.e v) } acc
  | Token.Dhse :: ts, st, acc =>
    match st.re with
    | none => none
    | some v =>
      writeTokens C ts
        { st with symmetricstate := st.symmetricstate.mix_key C (C.dh st.s v) } acc
  | Token.Dhss :: ts, st, acc =>
    match st.rs with
    | none => none
    | some v =>
      writeTokens C ts
        { st with symmetricstate := st.symmetricstate.mix_key C (C.dh st.s v) } acc

/-- Token loop of read_message (handshakestate.rs lines 184-218).  `ptr` is
the unread tail of the incoming message; slicing past its end is the Rust
slice panic, modelled as `none`; a failing decrypt of an S token returns the
DecryptError with the state as mutated so far. -/
def readTokens (C : Crypto) : List Token → HandshakeState → List Nat →
    Option (HandshakeState × Except NoiseError (List Nat))
  | [], st, ptr => some (st, Except.ok ptr)
  | Token.Empty :: _, st, ptr => some (st, Except.ok ptr)
  | Token.E :: ts, st, ptr =>
    if DHLEN ≤ ptr.length then
      let pk := ptr.take DHLEN
      let ss1 := st.symmetricstate.mix_hash C pk
      let ss2 := if ss1.has_preshared_key then ss1.mix_key C pk else ss1
      readTokens C ts { st with re := some pk, symmetricstate := ss2 }
        (ptr.drop DHLEN)
    else none
  | Token.S :: ts, st, ptr =>
    let m := if st.symmetricstate.has_key then DHLEN + TAGLEN else DHLEN
    if m ≤ ptr.length then
      match st.symmetricstate.decrypt_and_hash C (ptr.take m) with
      | none => some (st, Except.error NoiseError.DecryptError)
      | some q =>
        readTokens C ts { st with symmetricstate := q.1, rs := some q.2 }
          (ptr.drop m)
    else none
  | Token.Dhee :: ts, st, ptr =>
    match st.re with
    | none => none
    | some v =>
      readTokens C ts
        { st with symmetricstate := st.symmetricstate.mix_key C (C.dh st.e v) } ptr
  | Token.Dhes :: ts, st, ptr =>
    match st.re with
    | none => none
    | some v =>
      readTokens C ts
        { st with symmetricstate := st.symmetricstate.mix_key C (C.dh st.s v) } ptr
  | Token.Dhse :: ts, st, ptr =>
    match st.rs with
    | none => none
    | some v =>
      readTokens C ts
        { st with symmetricstate := st.symmetricstate.mix_key C (C.dh st.e v) } ptr
  | Token.Dhss :: ts, st, ptr =>
    match st.rs with
    | none => none
    | some v =>
      readTokens C ts
        { st with symmetricstate := st.symmetricstate.mix_key C (C.dh st.s v) } ptr

/-- Whether a token is the Empty sentinel, as the Rust `if let` test. -/
def Token.isEmptyTok : Token → Bool
  | Token.Empty => true
  | _ => false

/-- HandshakeState::write_message (handshakestate.rs lines 125-168).
Returns the updated state, the produced message bytes and the finished
flag; `none` models the assert failures and index panics. -/
def HandshakeState.write_message (C : Crypto) (st : HandshakeState)
    (payload : List Nat) : Option (HandshakeState × List Nat × Bool) :=
  if st.my_turn_to_send then
    match st.message_patterns.get? st.message_index,
          st.message_patterns.get? (st.message_index + 1) with
    | some tokens, some nextRow =>
      match nextRow.get? 0 with
      | none => none
      | some t0 =>
        let last := t0.isEmptyTok
        let st1 := { st with message_index := st.message_index + 1 }
        match writeTokens C tokens st1 [] with
        | none => none
        | some (st2, msg1) =>
          let st3 := { st2 with my_turn_to_send := false }
          let p := st3.symmetricstate.encrypt_and_hash C payload
          let st4 := { st3 with symmetricstate := p.1 }
          let msg := msg1 ++ p.2
          if msg.length ≤ MAXMSGLEN then
            let st5 := if last then
                let cs := st4.symmetricstate.split C
                { st4 with cipherstate1 := cs.1, cipherstate2 := cs.2 }
              else st4
            some (st5, msg, last)
          else none
    | _, _ => none
  else none

/-- HandshakeState::read_message (handshakestate.rs lines 170-228).
Returns the updated state and either the DecryptError or the decrypted
payload, its reported length and the finished flag; `none` models the
assert failures and index panics. -/
def HandshakeState.read_message (C : Crypto) (st : HandshakeState)
    (message : List Nat) :
    Option (HandshakeState × Except NoiseError (List Nat × Nat × Bool)) :=
  if st.my_turn_to_send then none
  else if message.length ≤ MAXMSGLEN then
    match st.message_patterns.get? st.message_index,
          st.message_patterns.get? (st.message_index + 1) with
    | some tokens, some nextRow =>
      match nextRow.get? 0 with
      | none => none
      | some t0 =>
        let last := t0.isEmptyTok
        let st1 := { st with message_index := st.message_index + 1 }
        match readTokens C tokens st1 message with
        | none => none
        | some (st2, Except.error err) => some (st2, Except.error err)
        | some (st2, Except.ok ptr) =>
          match st2.symmetricstate.decrypt_and_hash C ptr with
          | none => some (st2, Except.error NoiseError.DecryptError)
          | some q =>
            let st3 := { st2 with symmetricstate := q.1, my_turn_to_send := true }
            let st4 := if last then
                let cs := st3.symmetricstate.split C
                { st3 with cipherstate1 := cs.1, cipherstate2 := cs.2 }
              else st3
            let payload_len := if st4.symmetricstate.has_key
                               then ptr.length - TAGLEN else ptr.length
            some (st4, Except.ok (q.2, payload_len, last))
    | _, _ => none
  else none

/-
  A small concrete instance of the cryptographic capability set, used to
  witness the general theorems on executable inputs.  It satisfies the
  interface laws the theorems assume: public keys are DHLEN bytes, the DH
  function is commutative on honestly generated keys, and AEAD decryption
  inverts encryption while appending a TAGLEN-byte tag.
-/

/-- Tag of the toy AEAD: TAGLEN bytes derived from key, nonce, ad and text. -/
def tag16 (k : List Nat) (n : Nat) (ad pt : List Nat) : List Nat :=
  List.replicate TAGLEN ((k.sum + n + ad.sum + pt.sum) % 251)

/-- Toy instance of the crypto capability set. -/
def Tc : Crypto where
  hashlen := 4
  HASH := fun d => [d.sum % 251, d.length % 251, 7, 9]
  hkdf2 := fun salt ikm =>
    ([salt.sum % 251, ikm.sum % 251, 1, 3],
     [ikm.sum % 251, (salt.sum + ikm.length) % 251, 2, 5])
  hkdf3 := fun salt ikm =>
    ([salt.sum % 251, ikm.sum % 251, 1, 4],
     [(salt.sum + ikm.sum) % 251, 6, 2, 8],
     [ikm.sum % 251, (salt.sum + 3) % 251, 3, 11])
  enc := fun k n ad pt => pt ++ tag16 k n ad pt
  dec := fun k n ad ct =>
    if TAGLEN ≤ ct.length ∧
       ct.drop (ct.length - TAGLEN) = tag16 k n ad (ct.take (ct.length - TAGLEN))
    then some (ct.take (ct.length - TAGLEN)) else none
  pub := fun x => List.replicate 31 0 ++ [x % 251]
  dh := fun a pb => [(a % 251) * (pb.sum % 251) % 251]
  dhName := strB ("25519")
  hashName := strB ("SHA256")
  cipherName := strB ("ChaChaPoly")

/-- A throwaway HandshakeState used only as the default of Option.getD. -/
def dflt : HandshakeState :=
  { symmetricstate := { h := [], ck := [], has_psk := false, cst := { k := none, n := 0 } },
    cipherstate1 := { k := none, n := 0 }, cipherstate2 := { k := none, n := 0 },
    s := 0, e := 0, rs := none, re := none, my_turn_to_send := false,
    message_patterns := [], message_index := 0, rng := fun _ => 0, rngPos := 0 }

/-- Default write result for Option.getD. -/
def wOut : HandshakeState × List Nat × Bool := (dflt, [], false)

/-- Default read result for Option.getD. -/
def rOut : HandshakeState × Except NoiseError (List Nat × Nat × Bool) :=
  (dflt, Except.error NoiseError.DecryptError)

/-- A row of ten Empty tokens. -/
def emptyRow : List Token := List.replicate 10 Token.Empty

/-- First message row of the NN pattern: a bare ephemeral. -/
def rowE : List Token := Token.E :: List.replicate 9 Token.Empty

/-- Second message row of the NN pattern: ephemeral then Dhee. -/
def rowEDhee : List Token := Token.E :: Token.Dhee :: List.replicate 8 Token.Empty

/-- The 10x10 message matrix of the NN pattern. -/
def mpNN : List (List Token) := [rowE, rowEDhee] ++ List.replicate 8 emptyRow

/-- Initiator state of a concrete NN handshake over the toy crypto. -/
def W0 : HandshakeState :=
  (HandshakeState.new Tc (fun i => 100 + i) { k := none, n := 0 } { k := none, n := 0 }
    (strB ("NN")) emptyRow emptyRow mpNN true [] none 1 2 none none).getD dflt

/-- Responder state of the same NN handshake. -/
def R0 : HandshakeState :=
  (HandshakeState.new Tc (fun i => 200 + i) { k := none, n := 0 } { k := none, n := 0 }
    (strB ("NN")) emptyRow emptyRow mpNN false [] none 3 4 none none).getD dflt

/-- Initiator state after writing message 1 of the NN run. -/
def w1 : HandshakeState := ((W0.write_message Tc [9, 8]).getD wOut).1

/-- Message 1 of the NN run. -/
def msg1 : List Nat := ((W0.write_message Tc [9, 8]).getD wOut).2.1

/-- Responder state after reading message 1. -/
def r1 : HandshakeState := ((R0.read_message Tc msg1).getD rOut).1

/-- Responder state after writing message 2 (handshake finished). -/
def r2 : HandshakeState := ((r1.write_message Tc [7]).getD wOut).1

/-- Message 2 of the NN run. -/
def msg2 : List Nat := ((r1.write_message Tc [7]).getD wOut).2.1

/-- Initiator state after reading message 2 (handshake finished). -/
def w2 : HandshakeState := ((w1.read_message Tc msg2).getD rOut).1

/-- Flip the first byte of a message, to exercise the tamper path. -/
def tamperHead : List Nat → List Nat
  | [] => []
  | a :: t => (a + 1) :: t

/-- Message 2 with its first byte corrupted. -/
def c3msg : List Nat := tamperHead msg2

/-- Initiator state returned alongside the DecryptError on the tampered
message. -/
def c3st : HandshakeState := ((w1.read_message Tc c3msg).getD rOut).1

/-- A matrix whose second message row carries a lone ES token, used to show
that write_message interprets ES without consulting the role. -/
def mpES : List (List Token) :=
  [emptyRow, Token.Dhes :: List.replicate 9 Token.Empty] ++ List.replicate 8 emptyRow

/-- Initiator of the mpES run; both remote keys pre-known. -/
def c2I : HandshakeState :=
  (HandshakeState.new Tc (fun i => 100 + i) { k := none, n := 0 } { k := none, n := 0 }
    (strB ("ES")) emptyRow emptyRow mpES true [] none 11 12
    (some (Tc.pub 21)) (some (Tc.pub 22))).getD dflt

/-- Responder of the mpES run, constructed with initiator == false; both
remote keys pre-known. -/
def c2R : HandshakeState :=
  (HandshakeState.new Tc (fun i => 200 + i) { k := none, n := 0 } { k := none, n := 0 }
    (strB ("ES")) emptyRow emptyRow mpES false [] none 21 22
    (some (Tc.pub 11)) (some (Tc.pub 12))).getD dflt

/-- First (payload-only) message of the mpES run. -/
def c2msg : List Nat := ((c2I.write_message Tc []).getD wOut).2.1

/-- The responder after reading message 1: its next action is to write the
ES row. -/
def c2r1 : HandshakeState := ((c2R.read_message Tc c2msg).getD rOut).1

/-- A one-message pattern: E then nothing. -/
def mpOne : List (List Token) :=
  [Token.E :: List.replicate 9 Token.Empty] ++ List.replicate 9 emptyRow

/-- Initiator of the one-message run. -/
def c9W : HandshakeState :=
  (HandshakeState.new Tc (fun i => 300 + i) { k := none, n := 0 } { k := none, n := 0 }
    (strB ("ONE")) emptyRow emptyRow mpOne true [] none 31 32 none none).getD dflt

/-- Responder of the one-message run. -/
def c9R : HandshakeState :=
  (HandshakeState.new Tc (fun i => 400 + i) { k := none, n := 0 } { k := none, n := 0 }
    (strB ("ONE")) emptyRow emptyRow mpOne false [] none 41 42 none none).getD dflt

/-- The single message of the one-message run. -/
def c9msg : List Nat := ((c9W.write_message Tc [5]).getD wOut).2.1

/-- The responder after the handshake has completed: it read the final
message, so its turn flag is set. -/
def c9r1 : HandshakeState := ((c9R.read_message Tc c9msg).getD rOut).1

/-- A state placed at message_index 9, about to consume the tenth row. -/
def c10st : HandshakeState :=
  { dflt with my_turn_to_send := true, message_patterns := mpNN, message_index := 9 }

/-- A message one byte over the MAXMSGLEN cap. -/
def bigMsg : List Nat := List.replicate 65536 0

/-
  Joint-execution machinery for the round-trip theorem.
-/

/-- Which of the four remote-key slots (writer rs, writer re, reader rs,
reader re) are populated. -/
structure Quad where
  wrs : Bool
  wre : Bool
  rrs : Bool
  rre : Bool
deriving DecidableEq

/-- The presence quadruple of a writer/reader pair. -/
def quadOf (W R : HandshakeState) : Quad :=
  { wrs := W.rs.isSome, wre := W.re.isSome, rrs := R.rs.isSome, rre := R.re.isSome }

/-- Swap writer and reader in a presence quadruple. -/
def swapQ (q : Quad) : Quad :=
  { wrs := q.rrs, wre := q.rre, rrs := q.wrs, rre := q.wre }

/-- Presence bookkeeping of one message row: E publishes the writer
ephemeral to the reader, S publishes the writer static, and each DH token
requires the keys it consumes; `none` when a required key is missing. -/
def rowPres : List Token → Quad → Option Quad
  | [], q => some q
  | Token.Empty :: _, q => some q
  | Token.E :: ts, q => rowPres ts { q with rre := true }
  | Token.S :: ts, q => rowPres ts { q with rrs := true }
  | Token.Dhee :: ts, q => if q.wre && q.rre then rowPres ts q else none
  | Token.Dhes :: ts, q => if q.wrs && q.rre then rowPres ts q else none
  | Token.Dhse :: ts, q => if q.wre && q.rrs then rowPres ts q else none
  | Token.Dhss :: ts, q => if q.wrs && q.rrs then rowPres ts q else none

/-- Validity of driving `cnt` more messages from row `mi` with presence
`q`: every row resolves, every required key is present, and the
Empty-successor boundary falls exactly after the last message. -/
def runOK (mp : List (List Token)) : Nat → Quad → Nat → Bool
  | _, _, 0 => true
  | mi, q, cnt + 1 =>
    match mp.get? mi, mp.get? (mi + 1) with
    | some row, some next =>
      match rowPres row q, next.get? 0 with
      | some q2, some t0 =>
        (if cnt = 0 then t0.isEmptyTok else !t0.isEmptyTok)
          && runOK mp (mi + 1) (swapQ q2) cnt
      | _, _ => false
    | _, _ => false

/-- The expected finished-flag sequence of an n-message handshake. -/
def lastFlags : Nat → List Bool
  | 0 => []
  | 1 => [true]
  | n + 2 => false :: lastFlags (n + 1)

/-- Drive the two sides against each other, one payload per message,
alternating the writer; record for each message the payload the reader
recovered and the two finished flags; `none` on any panic or decrypt
failure. -/
def handshakeRun (C : Crypto) :
    HandshakeState → HandshakeState → List (List Nat) →
    Option (HandshakeState × HandshakeState × List (List Nat × Bool × Bool))
  | W, R, [] => some (W, R, [])
  | W, R, p :: ps =>
    match W.write_message C p with
    | none => none
    | some (W1, msg, lw) =>
      match R.read_message C msg with
      | none => none
      | some (_, Except.error _) => none
      | some (R1, Except.ok (pl, _, lr)) =>
        match handshakeRun C R1 W1 ps with
        | none => none
        | some (Rf, Wf, rest) => some (Wf, Rf, (pl, lw, lr) :: rest)

/-- Cross-consistency of the remote-key slots of a writer/reader pair:
every populated slot holds the public key of the corresponding keypair of
the other side. -/
def KeyCon (C : Crypto) (W R : HandshakeState) : Prop :=
  (∀ v, W.rs = some v → v = C.pub R.s) ∧
  (∀ v, W.re = some v → v = C.pub R.e) ∧
  (∀ v, R.rs = some v → v = C.pub W.s) ∧
  (∀ v, R.re = some v → v = C.pub W.e)

/-- Fields of the writer that the token loop leaves unchanged. -/
def presW (a b : HandshakeState) : Prop :=
  b.my_turn_to_send = a.my_turn_to_send ∧ b.message_index = a.message_index ∧
  b.message_patterns = a.message_patterns ∧ b.cipherstate1 = a.cipherstate1 ∧
  b.cipherstate2 = a.cipherstate2 ∧ b.s = a.s

/-- Fields of the reader that the token loop leaves unchanged (the reader
also never regenerates its ephemeral). -/
def presR (a b : HandshakeState) : Prop :=
  presW a b ∧ b.e = a.e

/-- The between-messages invariant of a writer/reader pair: identical
symmetric states, identical matrices and indices, complementary turn flags
and cross-consistent remote keys. -/
def MsgInv (C : Crypto) (W R : HandshakeState) : Prop :=
  W.symmetricstate = R.symmetricstate ∧
  W.message_patterns = R.message_patterns ∧
  W.message_index = R.message_index ∧
  W.my_turn_to_send = true ∧ R.my_turn_to_send = false ∧
  KeyCon C W R

/-- Writer-side state change of an E token: generate the ephemeral, mix-hash
its public key, and mix-key it when a PSK is present. -/
def wE (C : Crypto) (W : HandshakeState) : HandshakeState :=
  let enew := W.rng W.rngPos
  let pk := C.pub enew
  let ss1 := W.symmetricstate.mix_hash C pk
  let ss2 := if ss1.has_preshared_key then ss1.mix_key C pk else ss1
  { W with e := enew, rngPos := W.rngPos + 1, symmetricstate := ss2 }

/-- Reader-side state change of an E token on the received public key. -/
def rE (C : Crypto) (R : HandshakeState) (pk : List Nat) : HandshakeState :=
  let ss1 := R.symmetricstate.mix_hash C pk
  let ss2 := if ss1.has_preshared_key then ss1.mix_key C pk else ss1
  { R with re := some pk, symmetricstate := ss2 }

/-- State change of a DH token: mix-key the agreed secret. -/
def mixSt (C : Crypto) (st : HandshakeState) (input : List Nat) : HandshakeState :=
  { st with symmetricstate := st.symmetricstate.mix_key C input }

/-
  Helper lemmas.
-/

theorem presW_refl (a : HandshakeState) : presW a a :=
  ⟨rfl, rfl, rfl, rfl, rfl, rfl⟩

theorem presW_trans {a b c : HandshakeState} (h1 : presW a b) (h2 : presW b c) : presW a c := by
  obtain ⟨x1, x2, x3, x4, x5, x6⟩ := h1
  obtain ⟨y1, y2, y3, y4, y5, y6⟩ := h2
  exact ⟨y1.trans x1, y2.trans x2, y3.trans x3, y4.trans x4, y5.trans x5, y6.trans x6⟩

theorem presR_refl (a : HandshakeState) : presR a a := ⟨presW_refl a, rfl⟩

theorem presR_trans {a b c : HandshakeState} (h1 : presR a b) (h2 : presR b c) : presR a c :=
  ⟨presW_trans h1.1 h2.1, h2.2.trans h1.2⟩

theorem write_wrong_turn {C : Crypto} {st : HandshakeState} {p : List Nat}
    (h : st.my_turn_to_send = false) : st.write_message C p = none := by
  unfold HandshakeState.write_message
  simp [h]

theorem read_wrong_turn {C : Crypto} {st : HandshakeState} {m : List Nat}
    (h : st.my_turn_to_send = true) : st.read_message C m = none := by
  unfold HandshakeState.read_message
  simp [h]

theorem read_too_long {C : Crypto} {st : HandshakeState} {m : List Nat}
    (h : MAXMSGLEN < m.length) : st.read_message C m = none := by
  unfold HandshakeState.read_message
  cases hturn : st.my_turn_to_send <;> simp [Nat.not_le.mpr h]

theorem write_message_inv {C : Crypto} {st : HandshakeState} {payload : List Nat}
    {st' : HandshakeState} {msg : List Nat} {last : Bool}
    (h : st.write_message C payload = some (st', msg, last)) :
    st.my_turn_to_send = true ∧
    ∃ tokens nextRow t0 st2 msg1,
      st.message_patterns.get? st.message_index = some tokens ∧
      st.message_patterns.get? (st.message_index + 1) = some nextRow ∧
      nextRow.get? 0 = some t0 ∧
      last = t0.isEmptyTok ∧
      writeTokens C tokens { st with message_index := st.message_index + 1 } []
        = some (st2, msg1) ∧
      msg = msg1 ++ (st2.symmetricstate.encrypt_and_hash C payload).2 ∧
      msg.length ≤ MAXMSGLEN ∧
      st' = (if t0.isEmptyTok then
               { st2 with my_turn_to_send := false,
                          symmetricstate := (st2.symmetricstate.encrypt_and_hash C payload).1,
                          cipherstate1 := (((st2.symmetricstate.encrypt_and_hash C payload).1).split C).1,
                          cipherstate2 := (((st2.symmetricstate.encrypt_and_hash C payload).1).split C).2 }
             else
               { st2 with my_turn_to_send := false,
                          symmetricstate := (st2.symmetricstate.encrypt_and_hash C payload).1 }) := by
  unfold HandshakeState.write_message at h
  split at h
  case isFalse => exact absurd h (by simp)
  case isTrue hturn =>
    split at h
    case h_2 => exact absurd h (by simp)
    case h_1 tokens nextRow h1 h2 =>
      split at h
      case h_1 => exact absurd h (by simp)
      case h_2 t0 h3 =>
        unfold_let at h
        split at h
        case h_1 => exact absurd h (by simp)
        case h_2 st2 msg1 h4 =>
          split at h
          case isFalse => exact absurd h (by simp)
          case isTrue h5 =>
            simp only [Option.some.injEq, Prod.mk.injEq] at h
            obtain ⟨hst, hmsg, hlast⟩ := h
            subst hst; subst hmsg; subst hlast
            exact ⟨hturn, tokens, nextRow, t0, st2, msg1, h1, h2, h3, rfl, h4, rfl, h5,
                   by cases hc : t0.isEmptyTok <;> simp [hc]⟩

theorem read_message_ok_inv {C : Crypto} {st : HandshakeState} {m : List Nat}
    {st' : HandshakeState} {pl : List Nat} {plen : Nat} {last : Bool}
    (h : st.read_message C m = some (st', Except.ok (pl, plen, last))) :
    st.my_turn_to_send = false ∧ m.length ≤ MAXMSGLEN ∧
    ∃ tokens nextRow t0 st2 ptr q,
      st.message_patterns.get? st.message_index = some tokens ∧
      st.message_patterns.get? (st.message_index + 1) = some nextRow ∧
      nextRow.get? 0 = some t0 ∧
      last = t0.isEmptyTok ∧
      readTokens C tokens { st with message_index := st.message_index + 1 } m
        = some (st2, Except.ok ptr) ∧
      st2.symmetricstate.decrypt_and_hash C ptr = some q ∧
      pl = q.2 ∧
      st' = (if t0.isEmptyTok then
               { st2 with symmetricstate := q.1, my_turn_to_send := true,
                          cipherstate1 := ((q.1).split C).1,
                          cipherstate2 := ((q.1).split C).2 }
             else { st2 with symmetricstate := q.1, my_turn_to_send := true }) ∧
      plen = (if st'.symmetricstate.has_key then ptr.length - TAGLEN else ptr.length) := by
  unfold HandshakeState.read_message at h
  split at h
  case isTrue => exact absurd h (by simp)
  case isFalse hturn =>
    split at h
    case isFalse => exact absurd h (by simp)
    case isTrue hlen =>
      split at h
      case h_2 => exact absurd h (by simp)
      case h_1 tokens nextRow h1 h2 =>
        split at h
        case h_1 => exact absurd h (by simp)
        case h_2 t0 h3 =>
          unfold_let at h
          split at h
          case h_1 => exact absurd h (by simp)
          case h_2 st2 err h4 => exact absurd h (by simp)
          case h_3 st2 ptr h4 =>
            split at h
            case h_1 => exact absurd h (by simp)
            case h_2 q h5 =>
              simp only [Option.some.injEq, Prod.mk.injEq, Except.ok.injEq] at h
              obtain ⟨hst, hpl, hplen, hlast⟩ := h
              subst hst; subst hpl; subst hplen; subst hlast
              refine ⟨by simpa using hturn, hlen, tokens, nextRow, t0, st2, ptr, q,
                      h1, h2, h3, rfl, h4, h5, rfl, ?_, ?_⟩
              · cases hc : t0.isEmptyTok <;> simp [hc]
              · cases hc : t0.isEmptyTok <;> simp [hc, SymmetricState.has_key]

theorem read_message_err_inv {C : Crypto} {st : HandshakeState} {m : List Nat}
    {st' : HandshakeState} {err : NoiseError}
    (h : st.read_message C m = some (st', Except.error err)) :
    st.my_turn_to_send = false ∧ m.length ≤ MAXMSGLEN ∧
    ∃ tokens nextRow t0,
      st.message_patterns.get? st.message_index = some tokens ∧
      st.message_patterns.get? (st.message_index + 1) = some nextRow ∧
      nextRow.get? 0 = some t0 ∧
      (readTokens C tokens { st with message_index := st.message_index + 1 } m
         = some (st', Except.error err) ∨
       (err = NoiseError.DecryptError ∧ ∃ ptr,
          readTokens C tokens { st with message_index := st.message_index + 1 } m
            = some (st', Except.ok ptr) ∧
          st'.symmetricstate.decrypt_and_hash C ptr = none)) := by
  unfold HandshakeState.read_message at h
  split at h
  case isTrue => exact absurd h (by simp)
  case isFalse hturn =>
    split at h
    case isFalse => exact absurd h (by simp)
    case isTrue hlen =>
      split at h
      case h_2 => exact absurd h (by simp)
      case h_1 tokens nextRow h1 h2 =>
        split at h
        case h_1 => exact absurd h (by simp)
        case h_2 t0 h3 =>
          unfold_let at h
          split at h
          case h_1 => exact absurd h (by simp)
          case h_2 st2 e2 h4 =>
            cases e2; cases err
            have hst : st2 = st' := by simpa using h
            subst hst
            exact ⟨by simpa using hturn, hlen, tokens, nextRow, t0, h1, h2, h3,
                   Or.inl h4⟩
          case h_3 st2 ptr h4 =>
            split at h
            case h_2 q h5 => exact absurd h (by simp)
            case h_1 h5 =>
              cases err
              have hst : st2 = st' := by simpa using h
              subst hst
              exact ⟨by simpa using hturn, hlen, tokens, nextRow, t0, h1, h2, h3,
                     Or.inr ⟨rfl, ptr, h4, h5⟩⟩

theorem writeTokens_pres (C : Crypto) :
    ∀ (ts : List Token) (st : HandshakeState) (acc : List Nat)
      (out : HandshakeState × List Nat),
      writeTokens C ts st acc = some out → presW st out.1 := by
  intro ts
  induction ts with
  | nil =>
    intro st acc out h
    simp only [writeTokens, Option.some.injEq] at h
    rw [← h]
    exact presW_refl st
  | cons t ts ih =>
    intro st acc out h
    cases t <;> simp only [writeTokens] at h
    case E =>
      have hx := ih _ _ out h
      exact presW_trans ⟨rfl, rfl, rfl, rfl, rfl, rfl⟩ hx
    case S =>
      have hx := ih _ _ out h
      exact presW_trans ⟨rfl, rfl, rfl, rfl, rfl, rfl⟩ hx
    case Dhee =>
      cases hre : st.re
      · simp [hre] at h
      · simp only [hre] at h
        have hx := ih _ _ out h
        exact presW_trans ⟨rfl, rfl, rfl, rfl, rfl, rfl⟩ hx
    case Dhes =>
      cases hrs : st.rs
      · simp [hrs] at h
      · simp only [hrs] at h
        have hx := ih _ _ out h
        exact presW_trans ⟨rfl, rfl, rfl, rfl, rfl, rfl⟩ hx
    case Dhse =>
      cases hre : st.re
      · simp [hre] at h
      · simp only [hre] at h
        have hx := ih _ _ out h
        exact presW_trans ⟨rfl, rfl, rfl, rfl, rfl, rfl⟩ hx
    case Dhss =>
      cases hrs : st.rs
      · simp [hrs] at h
      · simp only [hrs] at h
        have hx := ih _ _ out h
        exact presW_trans ⟨rfl, rfl, rfl, rfl, rfl, rfl⟩ hx
    case Empty =>
      simp only [Option.some.injEq] at h
      rw [← h]
      exact presW_refl st

theorem readTokens_pres (C : Crypto) :
    ∀ (ts : List Token) (st : HandshakeState) (ptr : List Nat)
      (out : HandshakeState × Except NoiseError (List Nat)),
      readTokens C ts st ptr = some out → presR st out.1 := by
  intro ts
  induction ts with
  | nil =>
    intro st ptr out h
    simp only [readTokens, Option.some.injEq] at h
    rw [← h]
    exact presR_refl st
  | cons t ts ih =>
    intro st ptr out h
    cases t <;> simp only [readTokens] at h
    case E =>
      split at h
      · have hx := ih _ _ out h
        exact presR_trans ⟨⟨rfl, rfl, rfl, rfl, rfl, rfl⟩, rfl⟩ hx
      · exact absurd h (by simp)
    case S =>
      cases hk : st.symmetricstate.has_key <;> simp only [hk, Bool.false_eq_true, if_false,
        if_true, reduceIte] at h
      all_goals
        split at h
        case isTrue =>
          split at h
          case h_1 =>
            simp only [Option.some.injEq] at h
            rw [← h]
            exact presR_refl st
          case h_2 q h5 =>
            have hx := ih _ _ out h
            exact presR_trans ⟨⟨rfl, rfl, rfl, rfl, rfl, rfl⟩, rfl⟩ hx
        case isFalse => exact absurd h (by simp)
    case Dhee =>
      cases hre : st.re
      · simp [hre] at h
      · simp only [hre] at h
        have hx := ih _ _ out h
        exact presR_trans ⟨⟨rfl, rfl, rfl, rfl, rfl, rfl⟩, rfl⟩ hx
    case Dhes =>
      cases hre : st.re
      · simp [hre] at h
      · simp only [hre] at h
        have hx := ih _ _ out h
        exact presR_trans ⟨⟨rfl, rfl, rfl, rfl, rfl, rfl⟩, rfl⟩ hx
    case Dhse =>
      cases hrs : st.rs
      · simp [hrs] at h
      · simp only [hrs] at h
        have hx := ih _ _ out h
        exact presR_trans ⟨⟨rfl, rfl, rfl, rfl, rfl, rfl⟩, rfl⟩ hx
    case Dhss =>
      cases hrs : st.rs
      · simp [hrs] at h
      · simp only [hrs] at h
        have hx := ih _ _ out h
        exact presR_trans ⟨⟨rfl, rfl, rfl, rfl, rfl, rfl⟩, rfl⟩ hx
    case Empty =>
      simp only [Option.some.injEq] at h
      rw [← h]
      exact presR_refl st

theorem readTokens_err (C : Crypto) :
    ∀ (ts : List Token) (st : HandshakeState) (ptr : List Nat)
      (st' : HandshakeState) (e : NoiseError),
      readTokens C ts st ptr = some (st', Except.error e) →
      e = NoiseError.DecryptError ∧ Token.S ∈ ts ∧
      ∃ data, st'.symmetricstate.decrypt_and_hash C data = none := by
  intro ts
  induction ts with
  | nil =>
    intro st ptr st' e h
    simp only [readTokens, Option.some.injEq, Prod.mk.injEq] at h
    exact absurd h.2 (by simp)
  | cons t ts ih =>
    intro st ptr st' e h
    cases t <;> simp only [readTokens] at h
    case E =>
      split at h
      · obtain ⟨he, hs, hd⟩ := ih _ _ st' e h
        exact ⟨he, List.mem_cons_of_mem _ hs, hd⟩
      · exact absurd h (by simp)
    case S =>
      cases hk : st.symmetricstate.has_key <;> simp only [hk, Bool.false_eq_true, if_false,
        if_true, reduceIte] at h
      all_goals
        split at h
        case isTrue =>
          split at h
          case h_1 h5 =>
            cases e
            have hst : st = st' := by simpa using h
            subst hst
            exact ⟨rfl, List.mem_cons_self _ _, _, h5⟩
          case h_2 q h5 =>
            obtain ⟨he, hs, hd⟩ := ih _ _ st' e h
            exact ⟨he, List.mem_cons_of_mem _ hs, hd⟩
        case isFalse => exact absurd h (by simp)
    case Dhee =>
      cases hre : st.re
      · simp [hre] at h
      · simp only [hre] at h
        obtain ⟨he, hs, hd⟩ := ih _ _ st' e h
        exact ⟨he, List.mem_cons_of_mem _ hs, hd⟩
    case Dhes =>
      cases hre : st.re
      · simp [hre] at h
      · simp only [hre] at h
        obtain ⟨he, hs, hd⟩ := ih _ _ st' e h
        exact ⟨he, List.mem_cons_of_mem _ hs, hd⟩
    case Dhse =>
      cases hrs : st.rs
      · simp [hrs] at h
      · simp only [hrs] at h
        obtain ⟨he, hs, hd⟩ := ih _ _ st' e h
        exact ⟨he, List.mem_cons_of_mem _ hs, hd⟩
    case Dhss =>
      cases hrs : st.rs
      · simp [hrs] at h
      · simp only [hrs] at h
        obtain ⟨he, hs, hd⟩ := ih _ _ st' e h
        exact ⟨he, List.mem_cons_of_mem _ hs, hd⟩
    case Empty =>
      simp only [Option.some.injEq, Prod.mk.injEq] at h
      exact absurd h.2 (by simp)

/-- C5: after `new` the turn flag equals the initiator argument; every
successful write_message requires the flag true and clears it; every
successful read_message requires it false and sets it; consequently two
writes, or two successful reads, in a row are impossible, so the sending
direction strictly alternates. -/
theorem C5_alternation :
    (∀ (C : Crypto) (rng : Nat → Nat) (cs1 cs2 : CipherState) (pn : List Nat)
       (pmi pmr : List Token) (mp : List (List Token)) (init : Bool)
       (prol : List Nat) (psk : Option (List Nat)) (s e : Nat)
       (rs re : Option (List Nat)) (st : HandshakeState),
       HandshakeState.new C rng cs1 cs2 pn pmi pmr mp init prol psk s e rs re = some st →
       st.my_turn_to_send = init) ∧
    (∀ (C : Crypto) (st : HandshakeState) (p : List Nat)
       (st' : HandshakeState) (msg : List Nat) (last : Bool),
       st.write_message C p = some (st', msg, last) →
       st.my_turn_to_send = true ∧ st'.my_turn_to_send = false) ∧
    (∀ (C : Crypto) (st : HandshakeState) (m : List Nat) (st' : HandshakeState)
       (out : List Nat × Nat × Bool),
       st.read_message C m = some (st', Except.ok out) →
       st.my_turn_to_send = false ∧ st'.my_turn_to_send = true) ∧
    (∀ (C : Crypto) (st : HandshakeState) (p : List Nat) (st' : HandshakeState)
       (msg : List Nat) (last : Bool) (p2 : List Nat),
       st.write_message C p = some (st', msg, last) → st'.write_message C p2 = none) ∧
    (∀ (C : Crypto) (st : HandshakeState) (m : List Nat) (st' : HandshakeState)
       (out : List Nat × Nat × Bool) (m2 : List Nat),
       st.read_message C m = some (st', Except.ok out) → st'.read_message C m2 = none) := by
  have k1 : ∀ (C : Crypto) (rng : Nat → Nat) (cs1 cs2 : CipherState) (pn : List Nat)
      (pmi pmr : List Token) (mp : List (List Token)) (init : Bool)
      (prol : List Nat) (psk : Option (List Nat)) (s e : Nat)
      (rs re : Option (List Nat)) (st : HandshakeState),
      HandshakeState.new C rng cs1 cs2 pn pmi pmr mp init prol psk s e rs re = some st →
      st.my_turn_to_send = init := by
    intro C rng cs1 cs2 pn pmi pmr mp init prol psk s e rs re st h
    unfold HandshakeState.new at h
    unfold_let at h
    split at h
    case h_1 => exact absurd h (by simp)
    case h_2 ss3 h1 =>
      split at h
      case h_1 => exact absurd h (by simp)
      case h_2 ss4 h2 =>
        simp only [Option.some.injEq] at h
        rw [← h]
  have k2 : ∀ (C : Crypto) (st : HandshakeState) (p : List Nat)
      (st' : HandshakeState) (msg : List Nat) (last : Bool),
      st.write_message C p = some (st', msg, last) →
      st.my_turn_to_send = true ∧ st'.my_turn_to_send = false := by
    intro C st p st' msg last h
    obtain ⟨hturn, tokens, nextRow, t0, st2, msg1, h1, h2, h3, hlast, h4, hmsg, hle, hst⟩ :=
      write_message_inv h
    refine ⟨hturn, ?_⟩
    rw [hst]
    cases hc : t0.isEmptyTok <;> simp [hc]
  have k3 : ∀ (C : Crypto) (st : HandshakeState) (m : List Nat) (st' : HandshakeState)
      (out : List Nat × Nat × Bool),
      st.read_message C m = some (st', Except.ok out) →
      st.my_turn_to_send = false ∧ st'.my_turn_to_send = true := by
    intro C st m st' out h
    obtain ⟨pl, plen, lastv⟩ := out
    obtain ⟨hturn, hlen, tokens, nextRow, t0, st2, ptr, q, h1, h2, h3, hlast, h4, h5,
            hpl, hst, hplen⟩ := read_message_ok_inv h
    refine ⟨hturn, ?_⟩
    rw [hst]
    cases hc : t0.isEmptyTok <;> simp [hc]
  exact ⟨k1, k2, k3,
         fun C st p st' msg last p2 h => write_wrong_turn ((k2 C st p st' msg last h).2),
         fun C st m st' out m2 h => read_wrong_turn ((k3 C st m st' out h).2)⟩

/-- Witness for C5 on the concrete NN run over the toy crypto. -/
theorem C5_witness :
    R0.my_turn_to_send = false ∧
    (W0.my_turn_to_send = true ∧ w1.my_turn_to_send = false) ∧
    (R0.my_turn_to_send = false ∧ r1.my_turn_to_send = true) ∧
    w1.write_message Tc [] = none ∧
    r1.read_message Tc [] = none :=
  ⟨C5_alternation.1 Tc (fun i => 200 + i) { k := none, n := 0 } { k := none, n := 0 }
     (strB ("NN")) emptyRow emptyRow mpNN false [] none 3 4 none none R0 rfl,
   C5_alternation.2.1 Tc W0 [9, 8] w1 msg1 false rfl,
   C5_alternation.2.2.1 Tc R0 msg1 r1 ([9, 8], 2, false) rfl,
   C5_alternation.2.2.2.1 Tc W0 [9, 8] w1 msg1 false [] rfl,
   C5_alternation.2.2.2.2 Tc R0 msg1 r1 ([9, 8], 2, false) [] rfl⟩

/-- C8: contract violations abort instead of returning a value: writing out
of turn, reading out of turn, reading an over-long message, and any DH
token whose required remote key is absent, all end in the panic outcome. -/
theorem C8_contract_panics :
    (∀ (C : Crypto) (st : HandshakeState) (p : List Nat),
       st.my_turn_to_send = false → st.write_message C p = none) ∧
    (∀ (C : Crypto) (st : HandshakeState) (m : List Nat),
       st.my_turn_to_send = true → st.read_message C m = none) ∧
    (∀ (C : Crypto) (st : HandshakeState) (m : List Nat),
       MAXMSGLEN < m.length → st.read_message C m = none) ∧
    (∀ (C : Crypto) (ts : List Token) (st : HandshakeState) (acc : List Nat),
       st.re = none → writeTokens C (Token.Dhee :: ts) st acc = none ∧
                      writeTokens C (Token.Dhse :: ts) st acc = none) ∧
    (∀ (C : Crypto) (ts : List Token) (st : HandshakeState) (acc : List Nat),
       st.rs = none → writeTokens C (Token.Dhes :: ts) st acc = none ∧
                      writeTokens C (Token.Dhss :: ts) st acc = none) ∧
    (∀ (C : Crypto) (ts : List Token) (st : HandshakeState) (ptr : List Nat),
       st.re = none → readTokens C (Token.Dhee :: ts) st ptr = none ∧
                      readTokens C (Token.Dhes :: ts) st ptr = none) ∧
    (∀ (C : Crypto) (ts : List Token) (st : HandshakeState) (ptr : List Nat),
       st.rs = none → readTokens C (Token.Dhse :: ts) st ptr = none ∧
                      readTokens C (Token.Dhss :: ts) st ptr = none) := by
  refine ⟨fun C st p h => write_wrong_turn h, fun C st m h => read_wrong_turn h,
          fun C st m h => read_too_long h, ?_, ?_, ?_, ?_⟩ <;>
    intro C ts st x h <;>
    exact ⟨by simp [writeTokens, readTokens, h], by simp [writeTokens, readTokens, h]⟩

/-- Witness for C8 at concrete states over the toy crypto. -/
theorem C8_witness :
    HandshakeState.write_message Tc dflt [] = none ∧
    HandshakeState.read_message Tc W0 [] = none ∧
    HandshakeState.read_message Tc dflt bigMsg = none ∧
    writeTokens Tc [Token.Dhee] dflt [] = none ∧
    readTokens Tc [Token.Dhss] dflt [] = none :=
  ⟨C8_contract_panics.1 Tc dflt [] rfl,
   C8_contract_panics.2.1 Tc W0 [] rfl,
   C8_contract_panics.2.2.1 Tc dflt bigMsg (by norm_num [bigMsg, MAXMSGLEN]),
   (C8_contract_panics.2.2.2.1 Tc [] dflt [] rfl).1,
   (C8_contract_panics.2.2.2.2.2.2 Tc [] dflt [] rfl).2⟩

/-- C10: both message functions index row message_index+1 of the fixed
ten-row matrix, so any call entered at message_index 9 or beyond aborts on
the out-of-bounds access, while indices up to 8 keep both accesses in
bounds; hence only patterns of at most nine messages can be driven to
completion. -/
theorem C10_matrix_bound :
    (∀ (C : Crypto) (st : HandshakeState) (p : List Nat),
       st.message_patterns.length = 10 → 9 ≤ st.message_index →
       st.write_message C p = none) ∧
    (∀ (C : Crypto) (st : HandshakeState) (m : List Nat),
       st.message_patterns.length = 10 → 9 ≤ st.message_index →
       st.read_message C m = none) ∧
    (∀ (mp : List (List Token)) (mi : Nat), mp.length = 10 → mi ≤ 8 →
       (mp.get? mi).isSome = true ∧ (mp.get? (mi + 1)).isSome = true) := by
  refine ⟨?_, ?_, ?_⟩
  · intro C st p hlen hmi
    unfold HandshakeState.write_message
    cases hturn : st.my_turn_to_send
    · simp
    · have h2 : st.message_patterns.get? (st.message_index + 1) = none := by
        rw [List.get?_eq_none]
        omega
      simp only [List.get?_eq_getElem?] at h2
      cases h1 : st.message_patterns.get? st.message_index <;>
        simp only [List.get?_eq_getElem?] at h1 <;> simp [h1, h2]
  · intro C st m hlen hmi
    unfold HandshakeState.read_message
    cases hturn : st.my_turn_to_send
    · have h2 : st.message_patterns.get? (st.message_index + 1) = none := by
        rw [List.get?_eq_none]
        omega
      simp only [List.get?_eq_getElem?] at h2
      by_cases hm : m.length ≤ MAXMSGLEN
      · cases h1 : st.message_patterns.get? st.message_index <;>
          simp only [List.get?_eq_getElem?] at h1 <;> simp [h1, h2, hm]
      · simp [hm]
    · simp
  · intro mp mi hlen hmi
    have hx : mi < mp.length := by omega
    have hy : mi + 1 < mp.length := by omega
    rw [List.get?_eq_get hx, List.get?_eq_get hy]
    exact ⟨rfl, rfl⟩

/-- Witness for C10: a state at message_index 9 over the ten-row NN matrix
aborts. -/
theorem C10_witness :
    c10st.message_patterns.length = 10 ∧ 9 ≤ c10st.message_index ∧
    HandshakeState.write_message Tc c10st [] = none :=
  ⟨rfl, by decide, C10_matrix_bound.1 Tc c10st [] rfl (by decide)⟩

theorem decrypt_with_ad_key {C : Crypto} {cs : CipherState} {ad ct : List Nat}
    {out : CipherState × List Nat}
    (h : cs.decrypt_with_ad C ad ct = some out) : out.1.k = cs.k := by
  unfold CipherState.decrypt_with_ad at h
  split at h
  case h_1 hk =>
    simp only [Option.some.injEq] at h
    rw [← h]
  case h_2 key hk =>
    split at h
    · exact absurd h (by simp)
    · simp only [Option.some.injEq] at h
      rw [← h, hk]

theorem decrypt_and_hash_key {C : Crypto} {ss : SymmetricState} {ct : List Nat}
    {out : SymmetricState × List Nat}
    (h : ss.decrypt_and_hash C ct = some out) : out.1.has_key = ss.has_key := by
  unfold SymmetricState.decrypt_and_hash at h
  split at h
  · exact absurd h (by simp)
  case h_2 q hq =>
    simp only [Option.some.injEq] at h
    rw [← h]
    have hk := decrypt_with_ad_key hq
    simp only [SymmetricState.has_key, CipherState.has_key, hk]

/-- C4: on success, read_message reports a payload length equal to the
length of the message remainder after the token fields, minus TAGLEN when
the symmetric state is keyed. -/
theorem C4_payload_len :
    ∀ (C : Crypto) (st : HandshakeState) (m : List Nat) (st' : HandshakeState)
      (pl : List Nat) (plen : Nat) (last : Bool),
      st.read_message C m = some (st', Except.ok (pl, plen, last)) →
      ∃ tokens st2 ptr,
        st.message_patterns.get? st.message_index = some tokens ∧
        readTokens C tokens { st with message_index := st.message_index + 1 } m
          = some (st2, Except.ok ptr) ∧
        plen = (if st'.symmetricstate.has_key then ptr.length - TAGLEN else ptr.length) ∧
        st'.symmetricstate.has_key = st2.symmetricstate.has_key := by
  intro C st m st' pl plen last h
  obtain ⟨hturn, hlen, tokens, nextRow, t0, st2, ptr, q, h1, h2, h3, hlast, h4, h5,
          hpl, hst, hplen⟩ := read_message_ok_inv h
  refine ⟨tokens, st2, ptr, h1, h4, hplen, ?_⟩
  have hq := decrypt_and_hash_key h5
  rw [hst]
  cases hc : t0.isEmptyTok <;> simpa [hc] using hq

/-- Witness for C4 on message 1 of the concrete NN run. -/
theorem C4_witness :
    ∃ tokens st2 ptr,
      R0.message_patterns.get? R0.message_index = some tokens ∧
      readTokens Tc tokens { R0 with message_index := R0.message_index + 1 } msg1
        = some (st2, Except.ok ptr) ∧
      (2 : Nat) = (if r1.symmetricstate.has_key then ptr.length - TAGLEN else ptr.length) ∧
      r1.symmetricstate.has_key = st2.symmetricstate.has_key :=
  C4_payload_len Tc R0 msg1 r1 [9, 8] 2 false rfl

/-- C3: read_message signals an error exactly when a decrypt_and_hash call
fails; the error is always DecryptError, and on the error path split is not
reached, so the two transport CipherStates are left as they were. -/
theorem C3_decrypt_error :
    (∀ (C : Crypto) (st : HandshakeState) (m : List Nat) (st' : HandshakeState)
       (e : NoiseError),
       st.read_message C m = some (st', Except.error e) →
       e = NoiseError.DecryptError ∧
       st'.cipherstate1 = st.cipherstate1 ∧ st'.cipherstate2 = st.cipherstate2 ∧
       ∃ data, st'.symmetricstate.decrypt_and_hash C data = none) ∧
    (∀ (C : Crypto) (st : HandshakeState) (m : List Nat) (tokens nextRow : List Token)
       (t0 : Token) (st2 : HandshakeState) (ptr : List Nat)
       (q : SymmetricState × List Nat),
       st.my_turn_to_send = false → m.length ≤ MAXMSGLEN →
       st.message_patterns.get? st.message_index = some tokens →
       st.message_patterns.get? (st.message_index + 1) = some nextRow →
       nextRow.get? 0 = some t0 →
       readTokens C tokens { st with message_index := st.message_index + 1 } m
         = some (st2, Except.ok ptr) →
       st2.symmetricstate.decrypt_and_hash C ptr = some q →
       ∃ st' out, st.read_message C m = some (st', Except.ok out)) := by
  constructor
  · intro C st m st' e h
    obtain ⟨hturn, hlen, tokens, nextRow, t0, h1, h2, h3, hdisj⟩ := read_message_err_inv h
    rcases hdisj with htok | ⟨he, ptr, hok, hfail⟩
    · obtain ⟨he, hsmem, data, hdata⟩ := readTokens_err C tokens _ m st' e htok
      have hpres := readTokens_pres C tokens _ m (st', Except.error e) htok
      exact ⟨he, hpres.1.2.2.2.1, hpres.1.2.2.2.2.1, data, hdata⟩
    · have hpres := readTokens_pres C tokens _ m (st', Except.ok ptr) hok
      exact ⟨he, hpres.1.2.2.2.1, hpres.1.2.2.2.2.1, ptr, hfail⟩
  · intro C st m tokens nextRow t0 st2 ptr q hturn hlen h1 h2 h3 hok h5
    simp only [hturn] at hok
    unfold HandshakeState.read_message
    simp only [hturn, Bool.false_eq_true, if_false, hlen, if_true, h1, h2, h3, hok, h5]
    exact ⟨_, _, rfl⟩

/-- Witness for C3 on the tampered second message of the NN run. -/
theorem C3_witness :
    NoiseError.DecryptError = NoiseError.DecryptError ∧
    c3st.cipherstate1 = w1.cipherstate1 ∧ c3st.cipherstate2 = w1.cipherstate2 ∧
    ∃ data, c3st.symmetricstate.decrypt_and_hash Tc data = none :=
  C3_decrypt_error.1 Tc w1 c3msg c3st NoiseError.DecryptError rfl

/-- C6: in both directions the finished flag is true exactly when row
message_index+1 starts with Empty at entry, message_index advances by one
per call (also on the error path of read_message), and split populates the
two CipherStates exactly when the flag is true (for read_message only on
success); under a matrix with a unique Empty boundary N, the flag of an
in-handshake call is true exactly at entry index N-1, hence exactly once
per side and at the same index on both sides. -/
theorem C6_finished :
    (∀ (C : Crypto) (st : HandshakeState) (p : List Nat) (st' : HandshakeState)
       (msg : List Nat) (last : Bool),
       st.write_message C p = some (st', msg, last) →
       st'.message_index = st.message_index + 1 ∧
       (last = true ↔ (st.message_patterns.get? (st.message_index + 1)).bind
          (fun r => r.get? 0) = some Token.Empty) ∧
       (last = true → st'.cipherstate1 = ((st'.symmetricstate).split C).1 ∧
                      st'.cipherstate2 = ((st'.symmetricstate).split C).2) ∧
       (last = false → st'.cipherstate1 = st.cipherstate1 ∧
                       st'.cipherstate2 = st.cipherstate2)) ∧
    (∀ (C : Crypto) (st : HandshakeState) (m : List Nat) (st' : HandshakeState)
       (pl : List Nat) (plen : Nat) (last : Bool),
       st.read_message C m = some (st', Except.ok (pl, plen, last)) →
       st'.message_index = st.message_index + 1 ∧
       (last = true ↔ (st.message_patterns.get? (st.message_index + 1)).bind
          (fun r => r.get? 0) = some Token.Empty) ∧
       (last = true → st'.cipherstate1 = ((st'.symmetricstate).split C).1 ∧
                      st'.cipherstate2 = ((st'.symmetricstate).split C).2) ∧
       (last = false → st'.cipherstate1 = st.cipherstate1 ∧
                       st'.cipherstate2 = st.cipherstate2)) ∧
    (∀ (C : Crypto) (st : HandshakeState) (m : List Nat) (st' : HandshakeState)
       (e : NoiseError),
       st.read_message C m = some (st', Except.error e) →
       st'.message_index = st.message_index + 1 ∧
       st'.cipherstate1 = st.cipherstate1 ∧ st'.cipherstate2 = st.cipherstate2) ∧
    (∀ (mp : List (List Token)) (N mi : Nat),
       (∀ i, ((mp.get? i).bind (fun r => r.get? 0) = some Token.Empty) ↔ N ≤ i) →
       mi < N →
       (((mp.get? (mi + 1)).bind (fun r => r.get? 0) = some Token.Empty) ↔ mi = N - 1)) := by
  refine ⟨?_, ?_, ?_, ?_⟩
  · intro C st p st' msg last h
    obtain ⟨hturn, tokens, nextRow, t0, st2, msg1, h1, h2, h3, hlast, h4, hmsg, hle, hst⟩ :=
      write_message_inv h
    have hpres := writeTokens_pres C tokens _ [] (st2, msg1) h4
    refine ⟨?_, ?_, ?_, ?_⟩
    · rw [hst]
      cases hc : t0.isEmptyTok <;> simpa [hc] using hpres.2.1
    · rw [h2, Option.some_bind, h3, hlast]
      cases t0 <;> simp [Token.isEmptyTok]
    · intro hl
      rw [hlast] at hl
      rw [hst, hl]
      simp
    · intro hl
      rw [hlast] at hl
      rw [hst, hl]
      simpa using ⟨hpres.2.2.2.1, hpres.2.2.2.2.1⟩
  · intro C st m st' pl plen last h
    obtain ⟨hturn, hlen, tokens, nextRow, t0, st2, ptr, q, h1, h2, h3, hlast, h4, h5,
            hpl, hst, hplen⟩ := read_message_ok_inv h
    have hpres := readTokens_pres C tokens _ m (st2, Except.ok ptr) h4
    refine ⟨?_, ?_, ?_, ?_⟩
    · rw [hst]
      cases hc : t0.isEmptyTok <;> simpa [hc] using hpres.1.2.1
    · rw [h2, Option.some_bind, h3, hlast]
      cases t0 <;> simp [Token.isEmptyTok]
    · intro hl
      rw [hlast] at hl
      rw [hst, hl]
      simp
    · intro hl
      rw [hlast] at hl
      rw [hst, hl]
      simpa using ⟨hpres.1.2.2.2.1, hpres.1.2.2.2.2.1⟩
  · intro C st m st' e h
    obtain ⟨hturn, hlen, tokens, nextRow, t0, h1, h2, h3, hdisj⟩ := read_message_err_inv h
    have hpres : presR { st with message_index := st.message_index + 1 } st' := by
      rcases hdisj with htok | ⟨he, ptr, hok, hfail⟩
      · exact readTokens_pres C tokens _ m (st', Except.error e) htok
      · exact readTokens_pres C tokens _ m (st', Except.ok ptr) hok
    exact ⟨hpres.1.2.1, hpres.1.2.2.2.1, hpres.1.2.2.2.2.1⟩
  · intro mp N mi hN hmi
    constructor
    · intro h
      have := (hN (mi + 1)).mp h
      omega
    · intro h
      exact (hN (mi + 1)).mpr (by omega)

/-- Witness for C6 on the final message of the concrete NN run. -/
theorem C6_witness :
    w2.message_index = w1.message_index + 1 ∧
    (true = true ↔ (w1.message_patterns.get? (w1.message_index + 1)).bind
       (fun r => r.get? 0) = some Token.Empty) ∧
    (true = true → w2.cipherstate1 = ((w2.symmetricstate).split Tc).1 ∧
                   w2.cipherstate2 = ((w2.symmetricstate).split Tc).2) ∧
    (true = false → w2.cipherstate1 = w1.cipherstate1 ∧
                    w2.cipherstate2 = w1.cipherstate2) :=
  C6_finished.2.1 Tc w1 msg2 w2 [7] 1 true rfl

/-- C7: `new` assembles the protocol name as prefix, pattern name,
underscore, DH name, underscore, hash name, underscore, cipher name, in
that order, with the prefix NoisePSK_ exactly when a PSK is supplied;
those bytes seed the symmetric state, then the prologue is mix-hashed,
then the PSK (when present) is mixed, and only then the pre-message keys
are processed. -/
theorem C7_protocol_name :
    ∀ (C : Crypto) (rng : Nat → Nat) (cs1 cs2 : CipherState) (pn : List Nat)
      (pmi pmr : List Token) (mp : List (List Token)) (init : Bool)
      (prol : List Nat) (psk : Option (List Nat)) (s e : Nat)
      (rs re : Option (List Nat)) (st : HandshakeState),
      HandshakeState.new C rng cs1 cs2 pn pmi pmr mp init prol psk s e rs re = some st →
      ∃ ss3,
        (if init then
           mixPremsgOwn C
             (match psk with
              | some p =>
                ((SymmetricState.init C
                    ((if psk.isSome then strB ("NoisePSK_") else strB ("Noise_")) ++ pn
                      ++ [95] ++ C.dhName ++ [95] ++ C.hashName ++ [95]
                      ++ C.cipherName)).mix_hash C prol).mix_preshared_key C p
              | none =>
                (SymmetricState.init C
                    ((if psk.isSome then strB ("NoisePSK_") else strB ("Noise_")) ++ pn
                      ++ [95] ++ C.dhName ++ [95] ++ C.hashName ++ [95]
                      ++ C.cipherName)).mix_hash C prol)
             s e pmi
         else
           mixPremsgPeer C
             (match psk with
              | some p =>
                ((SymmetricState.init C
                    ((if psk.isSome then strB ("NoisePSK_") else strB ("Noise_")) ++ pn
                      ++ [95] ++ C.dhName ++ [95] ++ C.hashName ++ [95]
                      ++ C.cipherName)).mix_hash C prol).mix_preshared_key C p
              | none =>
                (SymmetricState.init C
                    ((if psk.isSome then strB ("NoisePSK_") else strB ("Noise_")) ++ pn
                      ++ [95] ++ C.dhName ++ [95] ++ C.hashName ++ [95]
                      ++ C.cipherName)).mix_hash C prol)
             rs re pmi) = some ss3 ∧
        (if init then mixPremsgPeer C ss3 rs re pmr
         else mixPremsgOwn C ss3 s e pmr) = some st.symmetricstate := by
  intro C rng cs1 cs2 pn pmi pmr mp init prol psk s e rs re st h
  unfold HandshakeState.new at h
  unfold_let at h
  split at h
  case h_1 => exact absurd h (by simp)
  case h_2 ss3 h1 =>
    split at h
    case h_1 => exact absurd h (by simp)
    case h_2 ss4 h2 =>
      simp only [Option.some.injEq] at h
      subst h
      exact ⟨ss3, h1, h2⟩

/-- Witness for C7 at the construction of the initiator of the NN run. -/
theorem C7_witness :
    ∃ ss3,
      (if true then
         mixPremsgOwn Tc
           (match (none : Option (List Nat)) with
            | some p =>
              ((SymmetricState.init Tc
                  ((if (none : Option (List Nat)).isSome then strB ("NoisePSK_")
                    else strB ("Noise_")) ++ strB ("NN")
                    ++ [95] ++ Tc.dhName ++ [95] ++ Tc.hashName ++ [95]
                    ++ Tc.cipherName)).mix_hash Tc []).mix_preshared_key Tc p
            | none =>
              (SymmetricState.init Tc
                  ((if (none : Option (List Nat)).isSome then strB ("NoisePSK_")
                    else strB ("Noise_")) ++ strB ("NN")
                    ++ [95] ++ Tc.dhName ++ [95] ++ Tc.hashName ++ [95]
                    ++ Tc.cipherName)).mix_hash Tc [])
           1 2 emptyRow
       else
         mixPremsgPeer Tc
           (match (none : Option (List Nat)) with
            | some p =>
              ((SymmetricState.init Tc
                  ((if (none : Option (List Nat)).isSome then strB ("NoisePSK_")
                    else strB ("Noise_")) ++ strB ("NN")
                    ++ [95] ++ Tc.dhName ++ [95] ++ Tc.hashName ++ [95]
                    ++ Tc.cipherName)).mix_hash Tc []).mix_preshared_key Tc p
            | none =>
              (SymmetricState.init Tc
                  ((if (none : Option (List Nat)).isSome then strB ("NoisePSK_")
                    else strB ("Noise_")) ++ strB ("NN")
                    ++ [95] ++ Tc.dhName ++ [95] ++ Tc.hashName ++ [95]
                    ++ Tc.cipherName)).mix_hash Tc [])
           none none emptyRow) = some ss3 ∧
      (if true then mixPremsgPeer Tc ss3 none none emptyRow
       else mixPremsgOwn Tc ss3 1 2 emptyRow) = some W0.symmetricstate :=
  C7_protocol_name Tc (fun i => 100 + i) { k := none, n := 0 } { k := none, n := 0 }
    (strB ("NN")) emptyRow emptyRow mpNN true [] none 1 2 none none W0 rfl

theorem Tc_pub_len : ∀ x, (Tc.pub x).length = DHLEN := by
  intro x
  simp [Tc, DHLEN]

theorem Tc_dh_comm : ∀ a b, Tc.dh a (Tc.pub b) = Tc.dh b (Tc.pub a) := by
  intro a b
  simp only [Tc, List.sum_append, List.sum_replicate, List.sum_cons, List.sum_nil,
    smul_eq_mul, mul_zero, zero_add, add_zero]
  rw [Nat.mod_mod_of_dvd b dvd_rfl, Nat.mod_mod_of_dvd a dvd_rfl, Nat.mul_comm]

theorem Tc_enc_len : ∀ k n ad pt, (Tc.enc k n ad pt).length = pt.length + TAGLEN := by
  intro k n ad pt
  simp [Tc, tag16]

theorem Tc_dec_enc : ∀ k n ad pt, Tc.dec k n ad (Tc.enc k n ad pt) = some pt := by
  intro k n ad pt
  simp only [Tc, tag16]
  have hl : (pt ++ List.replicate TAGLEN ((k.sum + n + ad.sum + pt.sum) % 251)).length
      - TAGLEN = pt.length := by
    simp [TAGLEN]
  rw [hl]
  rw [List.take_left, List.drop_left]
  simp [TAGLEN]

/-- C2 counterexample: a HandshakeState constructed with initiator == false
(the state c2r1, reached from c2R by reading message 1) processes a written
ES token as mix_key(e.dh(rs)), not as the mix_key(s.dh(re)) the claim
assigns to the responder role, and the two disagree. -/
theorem C2_counterexample :
    HandshakeState.new Tc (fun i => 200 + i) { k := none, n := 0 } { k := none, n := 0 }
      (strB ("ES")) emptyRow emptyRow mpES false [] none 21 22
      (some (Tc.pub 11)) (some (Tc.pub 12)) = some c2R ∧
    c2r1.my_turn_to_send = true ∧
    c2r1.message_patterns.get? c2r1.message_index
      = some (Token.Dhes :: List.replicate 9 Token.Empty) ∧
    (Option.map (fun r => r.1.symmetricstate.ck) (c2r1.write_message Tc []))
      = some ((c2r1.symmetricstate.mix_key Tc (Tc.dh c2r1.e (c2r1.rs.getD []))).ck) ∧
    (c2r1.symmetricstate.mix_key Tc (Tc.dh c2r1.e (c2r1.rs.getD []))).ck
      ≠ (c2r1.symmetricstate.mix_key Tc (Tc.dh c2r1.s (c2r1.re.getD []))).ck :=
  ⟨rfl, rfl, rfl, rfl, by decide⟩

/-- C2 (amended): the executor resolves ES and SE by direction, not role:
write_message performs mix_key(e.dh(rs)) for ES and mix_key(s.dh(re)) for
SE whatever role constructed the state, and read_message performs the
converse pair; the role-based table of the claim holds only when the token
is written by the initiator. -/
theorem C2_direction_not_role :
    ∀ (C : Crypto) (ts : List Token) (st : HandshakeState) (acc ptr : List Nat)
      (v : List Nat),
      (st.rs = some v →
        writeTokens C (Token.Dhes :: ts) st acc =
          writeTokens C ts
            { st with symmetricstate := st.symmetricstate.mix_key C (C.dh st.e v) } acc) ∧
      (st.re = some v →
        writeTokens C (Token.Dhse :: ts) st acc =
          writeTokens C ts
            { st with symmetricstate := st.symmetricstate.mix_key C (C.dh st.s v) } acc) ∧
      (st.re = some v →
        readTokens C (Token.Dhes :: ts) st ptr =
          readTokens C ts
            { st with symmetricstate := st.symmetricstate.mix_key C (C.dh st.s v) } ptr) ∧
      (st.rs = some v →
        readTokens C (Token.Dhse :: ts) st ptr =
          readTokens C ts
            { st with symmetricstate := st.symmetricstate.mix_key C (C.dh st.e v) } ptr) := by
  intro C ts st acc ptr v
  refine ⟨?_, ?_, ?_, ?_⟩ <;> intro h <;> simp [writeTokens, readTokens, h]

/-- Witness for C2 at the concrete responder-side state of the mpES run. -/
theorem C2_witness :
    writeTokens Tc [Token.Dhes] c2r1 [] =
      writeTokens Tc []
        { c2r1 with symmetricstate :=
            c2r1.symmetricstate.mix_key Tc (Tc.dh c2r1.e (Tc.pub 11)) } [] :=
  (C2_direction_not_role Tc [] c2r1 [] [] (Tc.pub 11)).1 rfl

/-- C9 counterexample: the one-message handshake completes (the read
returns finished == true), the reading side keeps my_turn_to_send == true,
and its subsequent write_message returns a value instead of aborting. -/
theorem C9_counterexample :
    (Option.map (fun p => match p.2 with
       | Except.ok out => out.2.2
       | Except.error _ => false) (c9R.read_message Tc c9msg)) = some true ∧
    c9r1.my_turn_to_send = true ∧
    (c9r1.write_message Tc [1]).isSome = true :=
  ⟨rfl, rfl, rfl⟩

/-- C9 (amended): a write_message call after completion aborts exactly on
the side whose turn flag is false (the writer of the final message); the
side that read the final message passes the assert and its call, which
consumes an all-Empty row, returns normally whenever the payload fits. -/
theorem C9_after_completion :
    (∀ (C : Crypto) (st : HandshakeState) (p : List Nat),
       st.my_turn_to_send = false → st.write_message C p = none) ∧
    (∀ (C : Crypto) (st : HandshakeState) (p : List Nat) (r r2 : List Token),
       (∀ k n ad pt, (C.enc k n ad pt).length = pt.length + TAGLEN) →
       st.my_turn_to_send = true →
       st.message_patterns.get? st.message_index = some (Token.Empty :: r) →
       st.message_patterns.get? (st.message_index + 1) = some (Token.Empty :: r2) →
       p.length + TAGLEN ≤ MAXMSGLEN →
       (st.write_message C p).isSome = true) := by
  constructor
  · exact fun C st p h => write_wrong_turn h
  · intro C st p r r2 henc hturn h1 h2 hp
    unfold HandshakeState.write_message
    simp only [hturn, if_true, h1, h2, List.get?_cons_zero, writeTokens]
    have hct : ((SymmetricState.encrypt_and_hash C st.symmetricstate p).2).length
        ≤ MAXMSGLEN := by
      unfold SymmetricState.encrypt_and_hash CipherState.encrypt_with_ad
      cases hk : st.symmetricstate.cst.k <;> simp [hk, henc] <;> omega
    simp [Token.isEmptyTok, hct]

/-- Witness for C9 (amended) at the post-completion responder state. -/
theorem C9_witness :
    (c9r1.write_message Tc [2]).isSome = true :=
  C9_after_completion.2 Tc c9r1 [2] (List.replicate 9 Token.Empty)
    (List.replicate 9 Token.Empty) Tc_enc_len rfl rfl rfl
    (by norm_num [TAGLEN, MAXMSGLEN])

theorem stepE_write (C : Crypto) (ts : List Token) (W : HandshakeState) (acc : List Nat) :
    writeTokens C (Token.E :: ts) W acc
      = writeTokens C ts (wE C W) (acc ++ C.pub (W.rng W.rngPos)) := rfl

theorem stepE_read (C : Crypto) (ts : List Token) (R : HandshakeState) (pk rest : List Nat)
    (hpk : pk.length = DHLEN) :
    readTokens C (Token.E :: ts) R (pk ++ rest) = readTokens C ts (rE C R pk) rest := by
  have hlen : DHLEN ≤ (pk ++ rest).length := by
    rw [List.length_append, hpk]
    omega
  simp only [readTokens, if_pos hlen, List.take_left' hpk, List.drop_left' hpk, rE]

theorem stepS_write (C : Crypto) (ts : List Token) (W : HandshakeState) (acc : List Nat) :
    writeTokens C (Token.S :: ts) W acc
      = writeTokens C ts
          { W with symmetricstate := (W.symmetricstate.encrypt_and_hash C (C.pub W.s)).1 }
          (acc ++ (W.symmetricstate.encrypt_and_hash C (C.pub W.s)).2) := rfl

theorem stepS_read (C : Crypto) (ts : List Token) (R : HandshakeState) (ct rest : List Nat)
    (q : SymmetricState × List Nat)
    (hct : ct.length = (if R.symmetricstate.has_key then DHLEN + TAGLEN else DHLEN))
    (hq : R.symmetricstate.decrypt_and_hash C ct = some q) :
    readTokens C (Token.S :: ts) R (ct ++ rest)
      = readTokens C ts { R with symmetricstate := q.1, rs := some q.2 } rest := by
  have hlen : (if R.symmetricstate.has_key then DHLEN + TAGLEN else DHLEN)
      ≤ (ct ++ rest).length := by
    rw [List.length_append, ← hct]
    omega
  simp only [readTokens, if_pos hlen, List.take_left' hct, List.drop_left' hct, hq]

theorem stepDhee_write (C : Crypto) (ts : List Token) (W : HandshakeState) (acc : List Nat)
    (v : List Nat) (h : W.re = some v) :
    writeTokens C (Token.Dhee :: ts) W acc
      = writeTokens C ts (mixSt C W (C.dh W.e v)) acc := by
  simp [writeTokens, h, mixSt]

theorem stepDhes_write (C : Crypto) (ts : List Token) (W : HandshakeState) (acc : List Nat)
    (v : List Nat) (h : W.rs = some v) :
    writeTokens C (Token.Dhes :: ts) W acc
      = writeTokens C ts (mixSt C W (C.dh W.e v)) acc := by
  simp [writeTokens, h, mixSt]

theorem stepDhse_write (C : Crypto) (ts : List Token) (W : HandshakeState) (acc : List Nat)
    (v : List Nat) (h : W.re = some v) :
    writeTokens C (Token.Dhse :: ts) W acc
      = writeTokens C ts (mixSt C W (C.dh W.s v)) acc := by
  simp [writeTokens, h, mixSt]

theorem stepDhss_write (C : Crypto) (ts : List Token) (W : HandshakeState) (acc : List Nat)
    (v : List Nat) (h : W.rs = some v) :
    writeTokens C (Token.Dhss :: ts) W acc
      = writeTokens C ts (mixSt C W (C.dh W.s v)) acc := by
  simp [writeTokens, h, mixSt]

theorem stepDhee_read (C : Crypto) (ts : List Token) (R : HandshakeState) (ptr : List Nat)
    (v : List Nat) (h : R.re = some v) :
    readTokens C (Token.Dhee :: ts) R ptr
      = readTokens C ts (mixSt C R (C.dh R.e v)) ptr := by
  simp [readTokens, h, mixSt]

theorem stepDhes_read (C : Crypto) (ts : List Token) (R : HandshakeState) (ptr : List Nat)
    (v : List Nat) (h : R.re = some v) :
    readTokens C (Token.Dhes :: ts) R ptr
      = readTokens C ts (mixSt C R (C.dh R.s v)) ptr := by
  simp [readTokens, h, mixSt]

theorem stepDhse_read (C : Crypto) (ts : List Token) (R : HandshakeState) (ptr : List Nat)
    (v : List Nat) (h : R.rs = some v) :
    readTokens C (Token.Dhse :: ts) R ptr
      = readTokens C ts (mixSt C R (C.dh R.e v)) ptr := by
  simp [readTokens, h, mixSt]

theorem stepDhss_read (C : Crypto) (ts : List Token) (R : HandshakeState) (ptr : List Nat)
    (v : List Nat) (h : R.rs = some v) :
    readTokens C (Token.Dhss :: ts) R ptr
      = readTokens C ts (mixSt C R (C.dh R.s v)) ptr := by
  simp [readTokens, h, mixSt]

theorem encrypt_decrypt_pair (C : Crypto)
    (hdec : ∀ k n ad pt, C.dec k n ad (C.enc k n ad pt) = some pt)
    (ss : SymmetricState) (pt : List Nat) :
    ss.decrypt_and_hash C ((ss.encrypt_and_hash C pt).2)
      = some ((ss.encrypt_and_hash C pt).1, pt) := by
  unfold SymmetricState.encrypt_and_hash SymmetricState.decrypt_and_hash
    CipherState.encrypt_with_ad CipherState.decrypt_with_ad
  cases hk : ss.cst.k <;> simp [hk, hdec]

theorem encrypt_and_hash_len (C : Crypto)
    (henc : ∀ k n ad pt, (C.enc k n ad pt).length = pt.length + TAGLEN)
    (ss : SymmetricState) (pt : List Nat) :
    ((ss.encrypt_and_hash C pt).2).length
      = (if ss.has_key then pt.length + TAGLEN else pt.length) := by
  unfold SymmetricState.encrypt_and_hash CipherState.encrypt_with_ad
    SymmetricState.has_key CipherState.has_key
  cases hk : ss.cst.k <;> simp [hk, henc]

theorem tokensStep (C : Crypto)
    (hpub : ∀ x, (C.pub x).length = DHLEN)
    (henc : ∀ k n ad pt, (C.enc k n ad pt).length = pt.length + TAGLEN)
    (hdec : ∀ k n ad pt, C.dec k n ad (C.enc k n ad pt) = some pt)
    (hdh : ∀ a b, C.dh a (C.pub b) = C.dh b (C.pub a)) :
    ∀ (ts : List Token) (W R : HandshakeState) (q2 : Quad),
      W.symmetricstate = R.symmetricstate →
      KeyCon C W R →
      rowPres ts (quadOf W R) = some q2 →
      ∃ W1 R1 out,
        (∀ acc, writeTokens C ts W acc = some (W1, acc ++ out)) ∧
        (∀ rest, readTokens C ts R (out ++ rest) = some (R1, Except.ok rest)) ∧
        W1.symmetricstate = R1.symmetricstate ∧
        KeyCon C W1 R1 ∧
        quadOf W1 R1 = q2 ∧
        out.length ≤ 48 * ts.length ∧
        presW W W1 ∧ presR R R1 := by
  intro ts
  induction ts with
  | nil =>
    intro W R q2 hss hkc hpres
    simp only [rowPres, Option.some.injEq] at hpres
    refine ⟨W, R, [], ?_, ?_, hss, hkc, hpres, by simp, presW_refl W, presR_refl R⟩
    · intro acc
      simp [writeTokens]
    · intro rest
      simp [readTokens]
  | cons t ts ih =>
    intro W R q2 hss hkc hpres
    cases t
    case Empty =>
      simp only [rowPres, Option.some.injEq] at hpres
      refine ⟨W, R, [], ?_, ?_, hss, hkc, hpres, by simp, presW_refl W, presR_refl R⟩
      · intro acc
        simp [writeTokens]
      · intro rest
        simp [readTokens]
    case E =>
      simp only [rowPres] at hpres
      have hssE : (wE C W).symmetricstate = (rE C R (C.pub (W.rng W.rngPos))).symmetricstate := by
        simp [wE, rE, hss]
      have hkcE : KeyCon C (wE C W) (rE C R (C.pub (W.rng W.rngPos))) := by
        obtain ⟨k1, k2, k3, k4⟩ := hkc
        refine ⟨fun v hv => k1 v hv, fun v hv => k2 v hv, fun v hv => k3 v hv, ?_⟩
        intro v hv
        have hv2 : some (C.pub (W.rng W.rngPos)) = some v := hv
        injection hv2 with hv3
        rw [← hv3]
        rfl
      have hqE : quadOf (wE C W) (rE C R (C.pub (W.rng W.rngPos)))
          = { quadOf W R with rre := true } := rfl
      obtain ⟨W1, R1, out, hw, hr, hss1, hkc1, hq1, hlen1, hpw, hpr⟩ :=
        ih (wE C W) (rE C R (C.pub (W.rng W.rngPos))) q2 hssE hkcE (by rw [hqE]; exact hpres)
      refine ⟨W1, R1, C.pub (W.rng W.rngPos) ++ out, ?_, ?_, hss1, hkc1, hq1, ?_, ?_, ?_⟩
      · intro acc
        rw [stepE_write, hw (acc ++ C.pub (W.rng W.rngPos)), List.append_assoc]
      · intro rest
        rw [List.append_assoc, stepE_read C ts R _ _ (hpub (W.rng W.rngPos))]
        exact hr rest
      · rw [List.length_append, hpub]
        simp only [List.length_cons, DHLEN]
        omega
      · exact presW_trans ⟨rfl, rfl, rfl, rfl, rfl, rfl⟩ hpw
      · exact presR_trans ⟨⟨rfl, rfl, rfl, rfl, rfl, rfl⟩, rfl⟩ hpr
    case S =>
      simp only [rowPres] at hpres
      have hctlen : ((W.symmetricstate.encrypt_and_hash C (C.pub W.s)).2).length
          = (if R.symmetricstate.has_key then DHLEN + TAGLEN else DHLEN) := by
        rw [← hss, encrypt_and_hash_len C henc, hpub]
      have hdecrypt : R.symmetricstate.decrypt_and_hash C
          ((W.symmetricstate.encrypt_and_hash C (C.pub W.s)).2)
          = some ((W.symmetricstate.encrypt_and_hash C (C.pub W.s)).1, C.pub W.s) := by
        rw [← hss]
        exact encrypt_decrypt_pair C hdec _ _
      have hssS : ({ W with symmetricstate :=
            (W.symmetricstate.encrypt_and_hash C (C.pub W.s)).1 } : HandshakeState).symmetricstate
          = ({ R with symmetricstate := (W.symmetricstate.encrypt_and_hash C (C.pub W.s)).1,
                      rs := some (C.pub W.s) } : HandshakeState).symmetricstate := rfl
      have hkcS : KeyCon C
          { W with symmetricstate := (W.symmetricstate.encrypt_and_hash C (C.pub W.s)).1 }
          { R with symmetricstate := (W.symmetricstate.encrypt_and_hash C (C.pub W.s)).1,
                   rs := some (C.pub W.s) } := by
        obtain ⟨k1, k2, k3, k4⟩ := hkc
        refine ⟨fun v hv => k1 v hv, fun v hv => k2 v hv, ?_, fun v hv => k4 v hv⟩
        intro v hv
        have hv2 : some (C.pub W.s) = some v := hv
        injection hv2 with hv3
        rw [← hv3]
      obtain ⟨W1, R1, out, hw, hr, hss1, hkc1, hq1, hlen1, hpw, hpr⟩ :=
        ih _ _ q2 hssS hkcS hpres
      refine ⟨W1, R1, (W.symmetricstate.encrypt_and_hash C (C.pub W.s)).2 ++ out,
              ?_, ?_, hss1, hkc1, hq1, ?_, ?_, ?_⟩
      · intro acc
        rw [stepS_write, hw (acc ++ (W.symmetricstate.encrypt_and_hash C (C.pub W.s)).2),
            List.append_assoc]
      · intro rest
        rw [List.append_assoc,
            stepS_read C ts R _ _ ((W.symmetricstate.encrypt_and_hash C (C.pub W.s)).1,
              C.pub W.s) hctlen hdecrypt]
        exact hr rest
      · have hb : ((W.symmetricstate.encrypt_and_hash C (C.pub W.s)).2).length ≤ 48 := by
          rw [hctlen]
          cases R.symmetricstate.has_key <;> simp [DHLEN, TAGLEN]
        rw [List.length_append]
        simp only [List.length_cons]
        omega
      · exact presW_trans ⟨rfl, rfl, rfl, rfl, rfl, rfl⟩ hpw
      · exact presR_trans ⟨⟨rfl, rfl, rfl, rfl, rfl, rfl⟩, rfl⟩ hpr
    case Dhee =>
      simp only [rowPres] at hpres
      split at hpres
      case isFalse => exact absurd hpres (by simp)
      case isTrue hcond =>
        simp only [quadOf, Bool.and_eq_true] at hcond
        obtain ⟨a, ha⟩ := Option.isSome_iff_exists.mp hcond.1
        obtain ⟨b, hb⟩ := Option.isSome_iff_exists.mp hcond.2
        have hva := hkc.2.1 a ha
        have hvb := hkc.2.2.2 b hb
        have hssD : (mixSt C W (C.dh W.e a)).symmetricstate
            = (mixSt C R (C.dh R.e b)).symmetricstate := by
          simp only [mixSt, hva, hvb, hss, hdh W.e R.e]
        obtain ⟨W1, R1, out, hw, hr, hss1, hkc1, hq1, hlen1, hpw, hpr⟩ :=
          ih (mixSt C W (C.dh W.e a)) (mixSt C R (C.dh R.e b)) q2 hssD hkc hpres
        refine ⟨W1, R1, out, ?_, ?_, hss1, hkc1, hq1, ?_, ?_, ?_⟩
        · intro acc
          rw [stepDhee_write C ts W acc a ha]
          exact hw acc
        · intro rest
          rw [stepDhee_read C ts R _ b hb]
          exact hr rest
        · simp only [List.length_cons]
          omega
        · exact presW_trans ⟨rfl, rfl, rfl, rfl, rfl, rfl⟩ hpw
        · exact presR_trans ⟨⟨rfl, rfl, rfl, rfl, rfl, rfl⟩, rfl⟩ hpr
    case Dhes =>
      simp only [rowPres] at hpres
      split at hpres
      case isFalse => exact absurd hpres (by simp)
      case isTrue hcond =>
        simp only [quadOf, Bool.and_eq_true] at hcond
        obtain ⟨a, ha⟩ := Option.isSome_iff_exists.mp hcond.1
        obtain ⟨b, hb⟩ := Option.isSome_iff_exists.mp hcond.2
        have hva := hkc.1 a ha
        have hvb := hkc.2.2.2 b hb
        have hssD : (mixSt C W (C.dh W.e a)).symmetricstate
            = (mixSt C R (C.dh R.s b)).symmetricstate := by
          simp only [mixSt, hva, hvb, hss, hdh W.e R.s]
        obtain ⟨W1, R1, out, hw, hr, hss1, hkc1, hq1, hlen1, hpw, hpr⟩ :=
          ih (mixSt C W (C.dh W.e a)) (mixSt C R (C.dh R.s b)) q2 hssD hkc hpres
        refine ⟨W1, R1, out, ?_, ?_, hss1, hkc1, hq1, ?_, ?_, ?_⟩
        · intro acc
          rw [stepDhes_write C ts W acc a ha]
          exact hw acc
        · intro rest
          rw [stepDhes_read C ts R _ b hb]
          exact hr rest
        · simp only [List.length_cons]
          omega
        · exact presW_trans ⟨rfl, rfl, rfl, rfl, rfl, rfl⟩ hpw
        · exact presR_trans ⟨⟨rfl, rfl, rfl, rfl, rfl, rfl⟩, rfl⟩ hpr
    case Dhse =>
      simp only [rowPres] at hpres
      split at hpres
      case isFalse => exact absurd hpres (by simp)
      case isTrue hcond =>
        simp only [quadOf, Bool.and_eq_true] at hcond
        obtain ⟨a, ha⟩ := Option.isSome_iff_exists.mp hcond.1
        obtain ⟨b, hb⟩ := Option.isSome_iff_exists.mp hcond.2
        have hva := hkc.2.1 a ha
        have hvb := hkc.2.2.1 b hb
        have hssD : (mixSt C W (C.dh W.s a)).symmetricstate
            = (mixSt C R (C.dh R.e b)).symmetricstate := by
          simp only [mixSt, hva, hvb, hss, hdh W.s R.e]
        obtain ⟨W1, R1, out, hw, hr, hss1, hkc1, hq1, hlen1, hpw, hpr⟩ :=
          ih (mixSt C W (C.dh W.s a)) (mixSt C R (C.dh R.e b)) q2 hssD hkc hpres
        refine ⟨W1, R1, out, ?_, ?_, hss1, hkc1, hq1, ?_, ?_, ?_⟩
        · intro acc
          rw [stepDhse_write C ts W acc a ha]
          exact hw acc
        · intro rest
          rw [stepDhse_read C ts R _ b hb]
          exact hr rest
        · simp only [List.length_cons]
          omega
        · exact presW_trans ⟨rfl, rfl, rfl, rfl, rfl, rfl⟩ hpw
        · exact presR_trans ⟨⟨rfl, rfl, rfl, rfl, rfl, rfl⟩, rfl⟩ hpr
    case Dhss =>
      simp only [rowPres] at hpres
      split at hpres
      case isFalse => exact absurd hpres (by simp)
      case isTrue hcond =>
        simp only [quadOf, Bool.and_eq_true] at hcond
        obtain ⟨a, ha⟩ := Option.isSome_iff_exists.mp hcond.1
        obtain ⟨b, hb⟩ := Option.isSome_iff_exists.mp hcond.2
        have hva := hkc.1 a ha
        have hvb := hkc.2.2.1 b hb
        have hssD : (mixSt C W (C.dh W.s a)).symmetricstate
            = (mixSt C R (C.dh R.s b)).symmetricstate := by
          simp only [mixSt, hva, hvb, hss, hdh W.s R.s]
        obtain ⟨W1, R1, out, hw, hr, hss1, hkc1, hq1, hlen1, hpw, hpr⟩ :=
          ih (mixSt C W (C.dh W.s a)) (mixSt C R (C.dh R.s b)) q2 hssD hkc hpres
        refine ⟨W1, R1, out, ?_, ?_, hss1, hkc1, hq1, ?_, ?_, ?_⟩
        · intro acc
          rw [stepDhss_write C ts W acc a ha]
          exact hw acc
        · intro rest
          rw [stepDhss_read C ts R _ b hb]
          exact hr rest
        · simp only [List.length_cons]
          omega
        · exact presW_trans ⟨rfl, rfl, rfl, rfl, rfl, rfl⟩ hpw
        · exact presR_trans ⟨⟨rfl, rfl, rfl, rfl, rfl, rfl⟩, rfl⟩ hpr

theorem encrypt_and_hash_key (C : Crypto) (ss : SymmetricState) (pt : List Nat) :
    ((ss.encrypt_and_hash C pt).1).has_key = ss.has_key := by
  unfold SymmetricState.encrypt_and_hash CipherState.encrypt_with_ad
    SymmetricState.has_key CipherState.has_key
  cases hk : ss.cst.k <;> simp [hk]

theorem premsgMatch (C : Crypto) :
    ∀ (ts : List Token) (ss : SymmetricState) (s e : Nat) (rs re : Option (List Nat))
      (out : SymmetricState),
      (∀ v, rs = some v → v = C.pub s) →
      (∀ v, re = some v → v = C.pub e) →
      mixPremsgPeer C ss rs re ts = some out →
      mixPremsgOwn C ss s e ts = some out := by
  intro ts
  induction ts with
  | nil =>
    intro ss s e rs re out _ _ h
    simpa [mixPremsgPeer, mixPremsgOwn] using h
  | cons t ts ih =>
    intro ss s e rs re out hrs hre h
    cases t
    case S =>
      cases hv : rs
      case none =>
        rw [hv] at h hrs
        simp [mixPremsgPeer] at h
      case some v =>
        rw [hv] at h hrs
        simp only [mixPremsgPeer] at h
        have hveq : v = C.pub s := hrs v rfl
        simp only [mixPremsgOwn, ← hveq]
        exact ih _ s e (some v) re out hrs hre h
    case E =>
      cases hv : re
      case none =>
        rw [hv] at h hre
        simp [mixPremsgPeer] at h
      case some v =>
        rw [hv] at h hre
        simp only [mixPremsgPeer] at h
        have hveq : v = C.pub e := hre v rfl
        simp only [mixPremsgOwn, ← hveq]
        exact ih _ s e rs (some v) out hrs hre h
    case Empty =>
      simp only [mixPremsgPeer] at h
      simpa [mixPremsgOwn] using h
    case Dhee => simp [mixPremsgPeer] at h
    case Dhes => simp [mixPremsgPeer] at h
    case Dhse => simp [mixPremsgPeer] at h
    case Dhss => simp [mixPremsgPeer] at h

theorem newSync (C : Crypto) (rngW rngR : Nat → Nat) (cs1 cs2 cs3 cs4 : CipherState)
    (pn : List Nat) (pmi pmr : List Token) (mp : List (List Token))
    (prol : List Nat) (psk : Option (List Nat)) (sW eW sR eR : Nat)
    (rsW reW rsR reR : Option (List Nat)) (W R : HandshakeState)
    (hrsW : ∀ v, rsW = some v → v = C.pub sR) (hreW : ∀ v, reW = some v → v = C.pub eR)
    (hrsR : ∀ v, rsR = some v → v = C.pub sW) (hreR : ∀ v, reR = some v → v = C.pub eW)
    (hW : HandshakeState.new C rngW cs1 cs2 pn pmi pmr mp true prol psk sW eW rsW reW
            = some W)
    (hR : HandshakeState.new C rngR cs3 cs4 pn pmi pmr mp false prol psk sR eR rsR reR
            = some R) :
    MsgInv C W R ∧ W.message_patterns = mp ∧ W.message_index = 0 ∧
    quadOf W R = ⟨rsW.isSome, reW.isSome, rsR.isSome, reR.isSome⟩ := by
  unfold HandshakeState.new at hW hR
  unfold_let at hW
  unfold_let at hR
  split at hW
  case h_1 => exact absurd hW (by simp)
  case h_2 ssW3 hW1 =>
    split at hW
    case h_1 => exact absurd hW (by simp)
    case h_2 ssW4 hW2 =>
      split at hR
      case h_1 => exact absurd hR (by simp)
      case h_2 ssR3 hR1 =>
        split at hR
        case h_1 => exact absurd hR (by simp)
        case h_2 ssR4 hR2 =>
          rw [if_pos rfl] at hW1 hW2
          rw [if_neg (by simp)] at hR1 hR2
          have hR1' := premsgMatch C pmi _ sW eW rsR reR ssR3 hrsR hreR hR1
          have h3 : ssW3 = ssR3 := by
            rw [hW1] at hR1'
            injection hR1'
          have hW2' := premsgMatch C pmr _ sR eR rsW reW ssW4 hrsW hreW hW2
          have h4 : ssW4 = ssR4 := by
            rw [h3] at hW2'
            rw [hW2'] at hR2
            injection hR2
          simp only [Option.some.injEq] at hW hR
          subst hW
          subst hR
          refine ⟨⟨h4, rfl, rfl, rfl, rfl, ?_, ?_, ?_, ?_⟩, rfl, rfl, rfl⟩
          · exact fun v hv => hrsW v hv
          · exact fun v hv => hreW v hv
          · exact fun v hv => hrsR v hv
          · exact fun v hv => hreR v hv

theorem msgStep (C : Crypto)
    (hpub : ∀ x, (C.pub x).length = DHLEN)
    (henc : ∀ k n ad pt, (C.enc k n ad pt).length = pt.length + TAGLEN)
    (hdec : ∀ k n ad pt, C.dec k n ad (C.enc k n ad pt) = some pt)
    (hdh : ∀ a b, C.dh a (C.pub b) = C.dh b (C.pub a))
    (W R : HandshakeState) (p : List Nat) (q2 : Quad)
    (row next : List Token) (t0 : Token)
    (hinv : MsgInv C W R)
    (hrow : W.message_patterns.get? W.message_index = some row)
    (hnext : W.message_patterns.get? (W.message_index + 1) = some next)
    (ht0 : next.get? 0 = some t0)
    (hpres : rowPres row (quadOf W R) = some q2)
    (hrl : row.length ≤ 10)
    (hp : p.length ≤ 65000) :
    ∃ W1 R1 msg,
      W.write_message C p = some (W1, msg, t0.isEmptyTok) ∧
      R.read_message C msg = some (R1, Except.ok (p, p.length, t0.isEmptyTok)) ∧
      MsgInv C R1 W1 ∧
      quadOf R1 W1 = swapQ q2 ∧
      R1.message_patterns = W.message_patterns ∧
      R1.message_index = W.message_index + 1 ∧
      (t0.isEmptyTok = true →
        W1.cipherstate1 = R1.cipherstate1 ∧ W1.cipherstate2 = R1.cipherstate2) := by
  obtain ⟨hss, hmp, hmi, hwturn, hrturn, hkc⟩ := hinv
  obtain ⟨W2, R2, out, hw, hr, hss2, hkc2, hq2, hout, hpw, hpr⟩ :=
    tokensStep C hpub henc hdec hdh row
      { W with message_index := W.message_index + 1 }
      { R with message_index := R.message_index + 1 } q2 hss hkc hpres
  have hwr := hw []
  rw [List.nil_append] at hwr
  simp only [hwturn] at hwr
  have hrd := hr ((W2.symmetricstate.encrypt_and_hash C p).2)
  simp only [hrturn] at hrd
  have hctlen : ((W2.symmetricstate.encrypt_and_hash C p).2).length ≤ p.length + TAGLEN := by
    rw [encrypt_and_hash_len C henc]
    cases hk : W2.symmetricstate.has_key <;> simp
  have hout480 : out.length ≤ 480 := by
    have h1 : 48 * row.length ≤ 480 := by omega
    omega
  have hmsg_le : (out ++ (W2.symmetricstate.encrypt_and_hash C p).2).length ≤ MAXMSGLEN := by
    rw [List.length_append]
    simp only [MAXMSGLEN]
    simp only [TAGLEN] at hctlen
    omega
  have hre_row : R.message_patterns.get? R.message_index = some row := by
    rw [← hmp, ← hmi]
    exact hrow
  have hre_next : R.message_patterns.get? (R.message_index + 1) = some next := by
    rw [← hmp, ← hmi]
    exact hnext
  have hdecp : R2.symmetricstate.decrypt_and_hash C
      ((W2.symmetricstate.encrypt_and_hash C p).2)
      = some ((W2.symmetricstate.encrypt_and_hash C p).1, p) := by
    rw [← hss2]
    exact encrypt_decrypt_pair C hdec _ _
  have hplen : (if ((W2.symmetricstate.encrypt_and_hash C p).1).has_key = true
      then ((W2.symmetricstate.encrypt_and_hash C p).2).length - TAGLEN
      else ((W2.symmetricstate.encrypt_and_hash C p).2).length) = p.length := by
    rw [encrypt_and_hash_key, encrypt_and_hash_len C henc]
    cases hk : W2.symmetricstate.has_key <;> simp [hk]
  have hkcSwap : KeyCon C R2 W2 :=
    ⟨fun v hv => hkc2.2.2.1 v hv, fun v hv => hkc2.2.2.2 v hv,
     fun v hv => hkc2.1 v hv, fun v hv => hkc2.2.1 v hv⟩
  cases hl : t0.isEmptyTok
  case true =>
    refine ⟨{ W2 with
                my_turn_to_send := false
                symmetricstate := (W2.symmetricstate.encrypt_and_hash C p).1
                cipherstate1 :=
                  (((W2.symmetricstate.encrypt_and_hash C p).1).split C).1
                cipherstate2 :=
                  (((W2.symmetricstate.encrypt_and_hash C p).1).split C).2 },
            { R2 with
                symmetricstate := (W2.symmetricstate.encrypt_and_hash C p).1
                my_turn_to_send := true
                cipherstate1 :=
                  (((W2.symmetricstate.encrypt_and_hash C p).1).split C).1
                cipherstate2 :=
                  (((W2.symmetricstate.encrypt_and_hash C p).1).split C).2 },
            out ++ (W2.symmetricstate.encrypt_and_hash C p).2, ?_, ?_, ?_, ?_, ?_, ?_, ?_⟩
    · unfold HandshakeState.write_message
      simp only [hwturn, if_true, hrow, hnext, ht0, hwr, hl, hmsg_le]
    · unfold HandshakeState.read_message
      simp only [hrturn, Bool.false_eq_true, if_false, hmsg_le, if_true, hre_row,
        hre_next, ht0, hrd, hl, hdecp, hplen]
    · refine ⟨rfl, ?_, ?_, rfl, rfl, ?_⟩
      · show R2.message_patterns = W2.message_patterns
        rw [hpr.1.2.2.1, hpw.2.2.1, hmp]
      · show R2.message_index = W2.message_index
        rw [hpr.1.2.1, hpw.2.1, hmi]
      · exact hkcSwap
    · show swapQ (quadOf W2 R2) = swapQ q2
      rw [hq2]
    · show R2.message_patterns = W.message_patterns
      rw [hpr.1.2.2.1, hmp]
    · show R2.message_index = W.message_index + 1
      rw [hpr.1.2.1, hmi]
    · intro _
      exact ⟨rfl, rfl⟩
  case false =>
    refine ⟨{ W2 with
                my_turn_to_send := false
                symmetricstate := (W2.symmetricstate.encrypt_and_hash C p).1 },
            { R2 with
                symmetricstate := (W2.symmetricstate.encrypt_and_hash C p).1
                my_turn_to_send := true },
            out ++ (W2.symmetricstate.encrypt_and_hash C p).2, ?_, ?_, ?_, ?_, ?_, ?_, ?_⟩
    · unfold HandshakeState.write_message
      simp only [hwturn, if_true, hrow, hnext, ht0, hwr, hl, hmsg_le,
        Bool.false_eq_true, if_false]
    · unfold HandshakeState.read_message
      simp only [hrturn, Bool.false_eq_true, if_false, hmsg_le, if_true, hre_row,
        hre_next, ht0, hrd, hl, hdecp, hplen]
    · refine ⟨rfl, ?_, ?_, rfl, rfl, ?_⟩
      · show R2.message_patterns = W2.message_patterns
        rw [hpr.1.2.2.1, hpw.2.2.1, hmp]
      · show R2.message_index = W2.message_index
        rw [hpr.1.2.1, hpw.2.1, hmi]
      · exact hkcSwap
    · show swapQ (quadOf W2 R2) = swapQ q2
      rw [hq2]
    · show R2.message_patterns = W.message_patterns
      rw [hpr.1.2.2.1, hmp]
    · show R2.message_index = W.message_index + 1
      rw [hpr.1.2.1, hmi]
    · intro hcontra
      exact absurd hcontra (by simp)

theorem runAux (C : Crypto)
    (hpub : ∀ x, (C.pub x).length = DHLEN)
    (henc : ∀ k n ad pt, (C.enc k n ad pt).length = pt.length + TAGLEN)
    (hdec : ∀ k n ad pt, C.dec k n ad (C.enc k n ad pt) = some pt)
    (hdh : ∀ a b, C.dh a (C.pub b) = C.dh b (C.pub a)) :
    ∀ (ps : List (List Nat)) (W R : HandshakeState),
      MsgInv C W R →
      (∀ r ∈ W.message_patterns, r.length = 10) →
      runOK W.message_patterns W.message_index (quadOf W R) ps.length = true →
      (∀ p ∈ ps, p.length ≤ 65000) →
      ∃ Wf Rf outs,
        handshakeRun C W R ps = some (Wf, Rf, outs) ∧
        outs.map (fun o => o.1) = ps ∧
        outs.map (fun o => o.2.1) = lastFlags ps.length ∧
        outs.map (fun o => o.2.2) = lastFlags ps.length ∧
        Wf.symmetricstate = Rf.symmetricstate ∧
        (ps ≠ [] → Wf.cipherstate1 = Rf.cipherstate1 ∧ Wf.cipherstate2 = Rf.cipherstate2) ∧
        (ps = [] → Wf = W ∧ Rf = R) := by
  intro ps
  induction ps with
  | nil =>
    intro W R hinv hwf hrun hplen
    exact ⟨W, R, [], rfl, rfl, rfl, rfl, hinv.1, fun h => absurd rfl h,
           fun _ => ⟨rfl, rfl⟩⟩
  | cons p ps ihp =>
    intro W R hinv hwf hrun hplen
    simp only [List.length_cons, runOK] at hrun
    cases hrowW : W.message_patterns.get? W.message_index with
    | none =>
      simp only [hrowW] at hrun
      exact absurd hrun (by simp)
    | some row =>
    cases hnext : W.message_patterns.get? (W.message_index + 1) with
    | none =>
      simp only [hrowW, hnext] at hrun
      exact absurd hrun (by simp)
    | some next =>
    simp only [hrowW, hnext] at hrun
    cases hpres : rowPres row (quadOf W R) with
    | none =>
      simp only [hpres] at hrun
      exact absurd hrun (by simp)
    | some q2 =>
    cases ht0 : next.get? 0 with
    | none =>
      simp only [hpres, ht0] at hrun
      exact absurd hrun (by simp)
    | some t0 =>
    simp only [hpres, ht0] at hrun
    simp only [Bool.and_eq_true] at hrun
    obtain ⟨hflag, hrun2⟩ := hrun
    have hrl : row.length ≤ 10 := by
      have := hwf row (List.get?_mem hrowW)
      omega
    obtain ⟨W1, R1, msg, hwrite, hread, hinv2, hq2, hmp2, hmi2, hcs⟩ :=
      msgStep C hpub henc hdec hdh W R p q2 row next t0 hinv hrowW hnext ht0 hpres hrl
        (hplen p (by simp))
    have hwf2 : ∀ r ∈ R1.message_patterns, r.length = 10 := by
      rw [hmp2]
      exact hwf
    have hrun3 : runOK R1.message_patterns R1.message_index (quadOf R1 W1) ps.length
        = true := by
      rw [hmp2, hmi2, hq2]
      exact hrun2
    have hplen2 : ∀ q ∈ ps, q.length ≤ 65000 :=
      fun q hq => hplen q (List.mem_cons_of_mem _ hq)
    obtain ⟨Af, Bf, rest, hrunEq, hmapP, hmap1, hmap2, hssf, hcsf, hbase⟩ :=
      ihp R1 W1 hinv2 hwf2 hrun3 hplen2
    refine ⟨Bf, Af, (p, t0.isEmptyTok, t0.isEmptyTok) :: rest, ?_, ?_, ?_, ?_, ?_, ?_, ?_⟩
    · simp only [handshakeRun, hwrite, hread, hrunEq]
    · simp [hmapP]
    · cases ps with
      | nil =>
        have hflag2 : t0.isEmptyTok = true := by simpa using hflag
        have hrest : rest.map (fun o => o.2.1) = [] := by simpa [lastFlags] using hmap1
        simp [hflag2, lastFlags, hrest]
      | cons p2 ps2 =>
        have hflag2 : t0.isEmptyTok = false := by simpa using hflag
        simp only [List.map_cons, hmap1, List.length_cons, hflag2, lastFlags]
    · cases ps with
      | nil =>
        have hflag2 : t0.isEmptyTok = true := by simpa using hflag
        have hrest : rest.map (fun o => o.2.2) = [] := by simpa [lastFlags] using hmap2
        simp [hflag2, lastFlags, hrest]
      | cons p2 ps2 =>
        have hflag2 : t0.isEmptyTok = false := by simpa using hflag
        simp only [List.map_cons, hmap2, List.length_cons, hflag2, lastFlags]
    · exact hssf.symm
    · intro _
      cases ps with
      | nil =>
        obtain ⟨hA, hB⟩ := hbase rfl
        have hflag2 : t0.isEmptyTok = true := by simpa using hflag
        obtain ⟨hc1, hc2⟩ := hcs hflag2
        rw [hA, hB]
        exact ⟨hc1, hc2⟩
      | cons p2 ps2 =>
        obtain ⟨hc1, hc2⟩ := hcsf (by simp)
        exact ⟨hc1.symm, hc2.symm⟩
    · intro h
      exact absurd h (by simp)

/-- C1: for any resolved pattern that is executable (runOK: every row
resolves, every DH token finds its keys, and the Empty boundary falls after
the last message), an initiator and a responder constructed by `new` with
the same pattern, prologue and optional PSK and with matching pre-known
public keys, driven against each other with one payload per message,
complete with every read_message returning Ok carrying exactly the written
payload, with both sides reporting the finished flag true exactly on the
final message, and with identical final symmetric states and bytewise
identical cs1 and cs2 CipherStates. -/
theorem C1_roundtrip (C : Crypto)
    (hpub : ∀ x, (C.pub x).length = DHLEN)
    (henc : ∀ k n ad pt, (C.enc k n ad pt).length = pt.length + TAGLEN)
    (hdec : ∀ k n ad pt, C.dec k n ad (C.enc k n ad pt) = some pt)
    (hdh : ∀ a b, C.dh a (C.pub b) = C.dh b (C.pub a))
    (rngW rngR : Nat → Nat) (cs1 cs2 cs3 cs4 : CipherState)
    (pn : List Nat) (pmi pmr : List Token) (mp : List (List Token))
    (prol : List Nat) (psk : Option (List Nat)) (sW eW sR eR : Nat)
    (rsW reW rsR reR : Option (List Nat)) (W R : HandshakeState)
    (hrsW : ∀ v, rsW = some v → v = C.pub sR)
    (hreW : ∀ v, reW = some v → v = C.pub eR)
    (hrsR : ∀ v, rsR = some v → v = C.pub sW)
    (hreR : ∀ v, reR = some v → v = C.pub eW)
    (hW : HandshakeState.new C rngW cs1 cs2 pn pmi pmr mp true prol psk sW eW rsW reW
            = some W)
    (hR : HandshakeState.new C rngR cs3 cs4 pn pmi pmr mp false prol psk sR eR rsR reR
            = some R)
    (ps : List (List Nat)) (hne : ps ≠ [])
    (hplen : ∀ p ∈ ps, p.length ≤ 65000)
    (hwf : ∀ r ∈ mp, r.length = 10)
    (hrun : runOK mp 0 ⟨rsW.isSome, reW.isSome, rsR.isSome, reR.isSome⟩ ps.length
              = true) :
    ∃ Wf Rf outs,
      handshakeRun C W R ps = some (Wf, Rf, outs) ∧
      outs.map (fun o => o.1) = ps ∧
      outs.map (fun o => o.2.1) = lastFlags ps.length ∧
      outs.map (fun o => o.2.2) = lastFlags ps.length ∧
      Wf.symmetricstate = Rf.symmetricstate ∧
      Wf.cipherstate1 = Rf.cipherstate1 ∧ Wf.cipherstate2 = Rf.cipherstate2 := by
  obtain ⟨hinv, hmp, hmi, hquad⟩ :=
    newSync C rngW rngR cs1 cs2 cs3 cs4 pn pmi pmr mp prol psk sW eW sR eR
      rsW reW rsR reR W R hrsW hreW hrsR hreR hW hR
  obtain ⟨Wf, Rf, outs, h1, h2, h3, h4, h5, h6, h7⟩ :=
    runAux C hpub henc hdec hdh ps W R hinv
      (by rw [hmp]; exact hwf)
      (by rw [hmp, hmi, hquad]; exact hrun)
      hplen
  exact ⟨Wf, Rf, outs, h1, h2, h3, h4, h5, (h6 hne).1, (h6 hne).2⟩

/-- Witness for C1: the two-message NN handshake over the toy crypto. -/
theorem C1_witness :
    ∃ Wf Rf outs,
      handshakeRun Tc W0 R0 [[9, 8], [7]] = some (Wf, Rf, outs) ∧
      outs.map (fun o => o.1) = [[9, 8], [7]] ∧
      outs.map (fun o => o.2.1) = lastFlags 2 ∧
      outs.map (fun o => o.2.2) = lastFlags 2 ∧
      Wf.symmetricstate = Rf.symmetricstate ∧
      Wf.cipherstate1 = Rf.cipherstate1 ∧ Wf.cipherstate2 = Rf.cipherstate2 :=
  C1_roundtrip Tc Tc_pub_len Tc_enc_len Tc_dec_enc Tc_dh_comm
    (fun i => 100 + i) (fun i => 200 + i)
    { k := none, n := 0 } { k := none, n := 0 } { k := none, n := 0 } { k := none, n := 0 }
    (strB ("NN")) emptyRow emptyRow mpNN [] none 1 2 3 4 none none none none W0 R0
    (fun v hv => nomatch hv) (fun v hv => nomatch hv)
    (fun v hv => nomatch hv) (fun v hv => nomatch hv)
    rfl rfl [[9, 8], [7]] (by simp) (by decide) (by decide) (by decide)

end Snow
